import Mathlib

/-! Point-in-polygon (pip.go): a shallow embedding and its properties

The Go package works over a floating-point parameter type `T`.  Here the
coordinates are exact rational numbers, so every comparison and every
arithmetic operation of the source is the exact one.  Not-a-number has no
counterpart among them: `GetBoundingBoxFloat` is `GetBoundingBox` on values
that may be not-a-number, with the comparisons of Go, and it agrees with
`GetBoundingBox` on polygons of numbers (`GetBoundingBoxFloat_toFloat`).

* `GetBoundingBox`, `PointInBoundingBox`, `PointInPolygon`, `MaxParallelism`
  and `PointInPolygonParallel` follow the functions of `pip.go` statement by
  statement.
* The goroutines of `PointInPolygonParallel` append to one slice under a
  mutex.  `Interleaving` describes every order in which those appends can
  happen; `PointInPolygonParallel` itself is the schedule in which the workers
  run one after the other in launch order.
-/

namespace Pip

/-! ## Data model -/

/-- A point (`type Point[T Float] struct { X T; Y T }`). -/
structure Point where
  X : ℚ
  Y : ℚ
deriving DecidableEq

/-- A polygon (`type Polygon[T Float] struct { Points []Point[T] }`). -/
structure Polygon where
  Points : List Point

/-- An axis-aligned box given by two corners. -/
structure BoundingBox where
  BottomLeft : Point
  TopRight : Point
deriving DecidableEq

/-! ## GetBoundingBox -/

/-- The four local variables `maxX, maxY, minX, minY` of `GetBoundingBox`. -/
structure Extent where
  maxX : ℚ
  maxY : ℚ
  minX : ℚ
  minY : ℚ
deriving DecidableEq

/-- One pass through the body of the loop of `GetBoundingBox`, on numbers.  For
values that may be not-a-number see `bbStepFloat`. -/
def bbStep (acc : Extent) (side : Point) : Extent :=
  { maxX := if side.X > acc.maxX ∨ acc.maxX = 0 then side.X else acc.maxX
    maxY := if side.Y > acc.maxY ∨ acc.maxY = 0 then side.Y else acc.maxY
    minX := if side.X < acc.minX ∨ acc.minX = 0 then side.X else acc.minX
    minY := if side.Y < acc.minY ∨ acc.minY = 0 then side.Y else acc.minY }

/-- The loop of `GetBoundingBox`: the accumulators start at zero (`var maxX,
maxY, minX, minY T`) and every vertex is visited once, in order. -/
def bbLoop (pts : List Point) : Extent :=
  pts.foldl bbStep ⟨0, 0, 0, 0⟩

/-- The function `GetBoundingBox` of `pip.go`. -/
def GetBoundingBox (poly : Polygon) : BoundingBox :=
  let e := bbLoop poly.Points
  { BottomLeft := ⟨e.minX, e.minY⟩, TopRight := ⟨e.maxX, e.maxY⟩ }

/-! ## PointInBoundingBox -/

/-- The function `PointInBoundingBox` of `pip.go`. -/
def PointInBoundingBox (pt : Point) (bb : BoundingBox) : Bool :=
  decide (pt.X < bb.TopRight.X) && decide (pt.X > bb.BottomLeft.X) &&
    decide (pt.Y < bb.TopRight.Y) && decide (pt.Y > bb.BottomLeft.Y)

/-! ## PointInPolygon -/

/-- The condition of the `if` inside the loop of `PointInPolygon`, with `vi =
verts[i]` and `vj = verts[j]`.  The `&&` is short-circuit: the quotient is only
evaluated when the first conjunct holds. -/
def crossing (pt vi vj : Point) : Bool :=
  (decide (vi.Y > pt.Y) != decide (vj.Y > pt.Y)) &&
    decide (pt.X < (vj.X - vi.X) * (pt.Y - vi.Y) / (vj.Y - vi.Y) + vi.X)

/-- The loop `for i := 1; i < nverts; i++ { ...; j = i }` of `PointInPolygon`,
entered at the loop head with the current values of `i`, `j` and `intersect`. -/
def edgeLoop (pt : Point) (verts : List Point) (i j : Nat) (hj : j < i)
    (intersect : Bool) : Bool :=
  if h : i < verts.length then
    edgeLoop pt verts (i + 1) i (Nat.lt_succ_self i)
      (if crossing pt (verts.get ⟨i, h⟩) (verts.get ⟨j, Nat.lt_trans hj h⟩)
        then !intersect else intersect)
  else intersect
termination_by verts.length - i

/-- The function `PointInPolygon` of `pip.go`. -/
def PointInPolygon (pt : Point) (poly : Polygon) : Bool :=
  let bb := GetBoundingBox poly
  if !PointInBoundingBox pt bb then false
  else edgeLoop pt poly.Points 1 0 Nat.zero_lt_one false

/-! ## MaxParallelism and PointInPolygonParallel -/

/-- The function `MaxParallelism` of `pip.go`; the two runtime queries
`runtime.GOMAXPROCS(0)` and `runtime.NumCPU()` are its arguments. -/
def MaxParallelism (maxProcs numCPU : Int) : Int :=
  if maxProcs < numCPU then maxProcs else numCPU

/-- The slice expression `s[lo:hi]` of Go on a slice whose capacity is its
length: it faults unless `lo ≤ hi ≤ len(s)`. -/
def goSlice {α : Type} (s : List α) (lo hi : Nat) : Option (List α) :=
  if lo ≤ hi ∧ hi ≤ s.length then some ((s.drop lo).take (hi - lo)) else none

/-- The launching loop `for i := 1; i <= numcores; i++` of
`PointInPolygonParallel`, entered at the loop head with the current `i` and
`start`; it yields the batches handed to the goroutines, in launch order, or
`none` when the integer division `len(pts) / numcores` has a zero divisor or a
slice expression faults. -/
def launchLoop (pts : List Point) (numcores i start : Nat) : Option (List (List Point)) :=
  if i ≤ numcores then
    if numcores = 0 then none
    else
      let size := (pts.length / numcores) * i
      match goSlice pts start size with
      | none => none
      | some batch =>
        match launchLoop pts numcores (i + 1) size with
        | none => none
        | some rest => some (batch :: rest)
  else some []
termination_by numcores + 1 - i

/-- The body of one goroutine: the points of its batch that pass
`PointInPolygon`, in the order in which it appends them. -/
def worker (poly : Polygon) (batch : List Point) : List Point :=
  batch.filter (fun pt => PointInPolygon pt poly)

/-- The batches that `PointInPolygonParallel` hands to its goroutines: the
requested count is clamped to `MaxParallelism()`, `wg.Add(numcores)` faults on
a negative count, and the launching loop slices the points.  The call
`runtime.GOMAXPROCS(MAXPROCS)` changes the scheduler only and has no part in
the result. -/
def parallelBatches (maxProcs numCPU : Int) (pts : List Point) (numcores : Int) :
    Option (List (List Point)) :=
  let MAXPROCS := MaxParallelism maxProcs numCPU
  let numcores := if numcores > MAXPROCS then MAXPROCS else numcores
  if numcores < 0 then none
  else launchLoop pts numcores.toNat 1 0

/-- The function `PointInPolygonParallel` of `pip.go` under the schedule in
which the goroutines run to completion in launch order. -/
def PointInPolygonParallel (maxProcs numCPU : Int) (pts : List Point) (poly : Polygon)
    (numcores : Int) : Option (List Point) :=
  (parallelBatches maxProcs numCPU pts numcores).map
    (fun batches => (batches.map (worker poly)).flatten)

/-- The orders in which appends guarded by one mutex can interleave:
`Interleaving ls out` holds when `out` is obtained by repeatedly removing the
head of one of the lists `ls`, until all are empty. -/
inductive Interleaving {α : Type} : List (List α) → List α → Prop
  | done (ls : List (List α)) : (∀ l ∈ ls, l = []) → Interleaving ls []
  | step (pre post : List (List α)) (x : α) (l out : List α) :
      Interleaving (pre ++ l :: post) out →
      Interleaving (pre ++ (x :: l) :: post) (x :: out)

/-- The slices that `PointInPolygonParallel` can return, over all schedules of
its goroutines. -/
def ParallelOutcome (maxProcs numCPU : Int) (pts : List Point) (poly : Polygon)
    (numcores : Int) (out : List Point) : Prop :=
  ∃ batches, parallelBatches maxProcs numCPU pts numcores = some batches ∧
    Interleaving (batches.map (worker poly)) out

/-! ## The loop of PointInPolygon as a recursion over the vertex list -/

/-- The loop of `PointInPolygon` read off the vertex list: `vj` is the vertex
at the trailing index, the list holds the vertices from index `i` on. -/
def walk (pt : Point) : Point → List Point → Bool → Bool
  | _, [], b => b
  | vj, vi :: rest, b => walk pt vi rest (if crossing pt vi vj then !b else b)

/-- The loop of `PointInPolygon` from its initial state `i = 1`, `j = 0`,
`intersect = false`, read off the vertex list. -/
def walkFrom (pt : Point) : List Point → Bool
  | [] => false
  | v0 :: rest => walk pt v0 rest false

/-! ## Reference notions the properties are stated against -/

/-- The smallest axis-aligned rectangle that holds every vertex: the least and
the greatest x and y over all vertices.  A polygon without vertices has none. -/
def trueExtent : List Point → Option BoundingBox
  | [] => none
  | v :: vs =>
    some { BottomLeft := ⟨(vs.map Point.X).foldl min v.X, (vs.map Point.Y).foldl min v.Y⟩
           TopRight := ⟨(vs.map Point.X).foldl max v.X, (vs.map Point.Y).foldl max v.Y⟩ }

/-- The test at index `i` of the edge between the consecutive vertices `v[i-1]`
and `v[i]`: `v[i].Y > pt.Y` differs from `v[i-1].Y > pt.Y`, and `pt.X` is less
than `(v[i-1].X - v[i].X) * (pt.Y - v[i].Y) / (v[i-1].Y - v[i].Y) + v[i].X`. -/
def crossingAt (pt : Point) (v : List Point) (i : Nat) : Bool :=
  decide (¬ ((v.getD i ⟨0, 0⟩).Y > pt.Y ↔ (v.getD (i - 1) ⟨0, 0⟩).Y > pt.Y)) &&
    decide (pt.X < ((v.getD (i - 1) ⟨0, 0⟩).X - (v.getD i ⟨0, 0⟩).X) * (pt.Y - (v.getD i ⟨0, 0⟩).Y) /
      ((v.getD (i - 1) ⟨0, 0⟩).Y - (v.getD i ⟨0, 0⟩).Y) + (v.getD i ⟨0, 0⟩).X)

/-- The number of indices `i` in `1 .. N-1` whose edge passes `crossingAt`. -/
def crossingCount (pt : Point) (v : List Point) : Nat :=
  ((List.Ico 1 v.length).filter (crossingAt pt v)).length

/-- The horizontal ray from `pt` towards +x crosses the edge from `a` to `b`:
the end points lie on different sides of the line `y = pt.Y`, and the point
of the edge at that height lies to the right of `pt`. -/
def rayCrossesEdge (pt a b : Point) : Bool :=
  decide (¬ (a.Y > pt.Y ↔ b.Y > pt.Y)) &&
    decide (pt.X < a.X + (pt.Y - a.Y) * (b.X - a.X) / (b.Y - a.Y))

/-- The `N` edges of the implicitly closed polygon: edge `i` joins vertex `i`
to vertex `i+1`, and the last vertex is joined back to the first. -/
def closedEdges (v : List Point) : List (Point × Point) :=
  v.zip (v.rotate 1)

/-- Inside by the even-odd rule: the ray crosses an odd number of the `N`
edges of the closed polygon. -/
def evenOddInside (pt : Point) (v : List Point) : Bool :=
  decide (Odd ((closedEdges v).filter (fun e => rayCrossesEdge pt e.1 e.2)).length)

/-- Twice the signed area of the triangle `a`, `b`, `p`: positive when `p` lies
to the left of the directed line from `a` to `b`. -/
def cross (a b p : Point) : ℚ :=
  (b.X - a.X) * (p.Y - a.Y) - (b.Y - a.Y) * (p.X - a.X)

/-- A convex polygon given in boundary order: all vertices lie on one side of
every edge, the same side for all edges. -/
def isConvex (v : List Point) : Bool :=
  (closedEdges v).all (fun e => v.all (fun p => decide (0 ≤ cross e.1 e.2 p))) ||
    (closedEdges v).all (fun e => v.all (fun p => decide (cross e.1 e.2 p ≤ 0)))

/-- The interior of a convex polygon: strictly on the inner side of every
edge. -/
def strictlyInside (pt : Point) (v : List Point) : Bool :=
  (closedEdges v).all (fun e => decide (0 < cross e.1 e.2 pt)) ||
    (closedEdges v).all (fun e => decide (cross e.1 e.2 pt < 0))

/-- One pass through the loop body of the variant of `GetBoundingBox` that
compares strictly and has no test for an accumulator equal to zero. -/
def bbStepStrict (acc : Extent) (side : Point) : Extent :=
  { maxX := if side.X > acc.maxX then side.X else acc.maxX
    maxY := if side.Y > acc.maxY then side.Y else acc.maxY
    minX := if side.X < acc.minX then side.X else acc.minX
    minY := if side.Y < acc.minY then side.Y else acc.minY }

/-- The variant of `GetBoundingBox` that initialises the four accumulators
from the first vertex and compares strictly thereafter.  It has no value for a
polygon without vertices. -/
def GetBoundingBoxFromFirst (poly : Polygon) : Option BoundingBox :=
  match poly.Points with
  | [] => none
  | v :: vs =>
    let e := vs.foldl bbStepStrict ⟨v.X, v.Y, v.X, v.Y⟩
    some { BottomLeft := ⟨e.minX, e.minY⟩, TopRight := ⟨e.maxX, e.maxY⟩ }

/-- The condition of the loop body of `PointInPolygon` with its order of
evaluation spelled out: the right operand of `&&` is evaluated only when the
left one is true, and the value is `none` when the quotient is evaluated with
the divisor `verts[j].Y - verts[i].Y` equal to zero. -/
def crossingChecked (pt vi vj : Point) : Option Bool :=
  if (decide (vi.Y > pt.Y) != decide (vj.Y > pt.Y)) = true then
    if vj.Y - vi.Y = 0 then none
    else some (decide (pt.X < (vj.X - vi.X) * (pt.Y - vi.Y) / (vj.Y - vi.Y) + vi.X))
  else some false

/-- The loop of `PointInPolygon` over `crossingChecked`: `none` as soon as a
quotient is evaluated with divisor zero. -/
def edgeLoopChecked (pt : Point) (verts : List Point) (i j : Nat) (hj : j < i)
    (intersect : Bool) : Option Bool :=
  if h : i < verts.length then
    match crossingChecked pt (verts.get ⟨i, h⟩) (verts.get ⟨j, Nat.lt_trans hj h⟩) with
    | none => none
    | some c =>
      edgeLoopChecked pt verts (i + 1) i (Nat.lt_succ_self i) (if c then !intersect else intersect)
  else some intersect
termination_by verts.length - i

/-- The parity of the number of edges between consecutive vertices of the list
that pass the condition of the loop body. -/
def chainParity (pt : Point) : List Point → Bool
  | [] => false
  | [_] => false
  | a :: b :: rest => xor (crossing pt b a) (chainParity pt (b :: rest))

/-! ## GetBoundingBox on floating-point values with not-a-number -/

/-- A value of the floating-point type `T` as `GetBoundingBox` sees it.  The
function only compares values (`>`, `<`, `== 0.0`), so a number is kept as the
exact number it stands for; the one value that compares differently is
not-a-number. -/
inductive FloatVal where
  | nan : FloatVal
  | num (x : ℚ) : FloatVal
deriving DecidableEq

/-- The comparison `a > b` of Go: false when either side is not-a-number. -/
def FloatVal.gt : FloatVal → FloatVal → Bool
  | .num x, .num y => decide (x > y)
  | _, _ => false

/-- The comparison `a < b` of Go: false when either side is not-a-number. -/
def FloatVal.lt : FloatVal → FloatVal → Bool
  | .num x, .num y => decide (x < y)
  | _, _ => false

/-- The comparison `a <= b` of Go: false when either side is not-a-number. -/
def FloatVal.le : FloatVal → FloatVal → Bool
  | .num x, .num y => decide (x ≤ y)
  | _, _ => false

/-- The comparison `a == 0.0` of Go: false for not-a-number. -/
def FloatVal.eqZero : FloatVal → Bool
  | .num x => decide (x = 0)
  | .nan => false

/-- A point whose coordinates may be not-a-number. -/
structure FloatPoint where
  X : FloatVal
  Y : FloatVal
deriving DecidableEq

/-- A polygon whose coordinates may be not-a-number. -/
structure FloatPolygon where
  Points : List FloatPoint

/-- A box whose coordinates may be not-a-number. -/
structure FloatBox where
  BottomLeft : FloatPoint
  TopRight : FloatPoint
deriving DecidableEq

/-- The four local variables of `GetBoundingBox`, as floating-point values. -/
structure FloatExtent where
  maxX : FloatVal
  maxY : FloatVal
  minX : FloatVal
  minY : FloatVal
deriving DecidableEq

/-- One pass through the body of the loop of `GetBoundingBox`, with the
comparisons of Go on floating-point values. -/
def bbStepFloat (acc : FloatExtent) (side : FloatPoint) : FloatExtent :=
  { maxX := if side.X.gt acc.maxX || acc.maxX.eqZero then side.X else acc.maxX
    maxY := if side.Y.gt acc.maxY || acc.maxY.eqZero then side.Y else acc.maxY
    minX := if side.X.lt acc.minX || acc.minX.eqZero then side.X else acc.minX
    minY := if side.Y.lt acc.minY || acc.minY.eqZero then side.Y else acc.minY }

/-- The loop of `GetBoundingBox` on floating-point values: the accumulators
start at zero and every vertex is visited once, in order. -/
def bbLoopFloat (pts : List FloatPoint) : FloatExtent :=
  pts.foldl bbStepFloat ⟨.num 0, .num 0, .num 0, .num 0⟩

/-- The function `GetBoundingBox` of `pip.go` on floating-point values. -/
def GetBoundingBoxFloat (poly : FloatPolygon) : FloatBox :=
  let e := bbLoopFloat poly.Points
  { BottomLeft := ⟨e.minX, e.minY⟩, TopRight := ⟨e.maxX, e.maxY⟩ }

/-- A point of exact numbers as a floating-point point. -/
def Point.toFloat (p : Point) : FloatPoint :=
  ⟨.num p.X, .num p.Y⟩

/-- The accumulators over exact numbers as floating-point values. -/
def Extent.toFloat (e : Extent) : FloatExtent :=
  ⟨.num e.maxX, .num e.maxY, .num e.minX, .num e.minY⟩

/-- A box of exact numbers as a floating-point box. -/
def BoundingBox.toFloat (bb : BoundingBox) : FloatBox :=
  ⟨bb.BottomLeft.toFloat, bb.TopRight.toFloat⟩

/-- A polygon of exact numbers as a floating-point polygon. -/
def Polygon.toFloat (poly : Polygon) : FloatPolygon :=
  ⟨poly.Points.map Point.toFloat⟩

/-- The number behind a floating-point value, zero for not-a-number. -/
def FloatVal.toRat : FloatVal → ℚ
  | .num x => x
  | .nan => 0

/-- The numbers behind a floating-point point. -/
def FloatPoint.toExact (p : FloatPoint) : Point :=
  ⟨p.X.toRat, p.Y.toRat⟩

/-- A polygon with a first vertex whose coordinates are not-a-number. -/
def nanPolygon : FloatPolygon :=
  ⟨[⟨.nan, .nan⟩, ⟨.num 1, .num 1⟩, ⟨.num 2, .num 2⟩]⟩

/-! ## Concrete polygons of the test file -/

/-- The rectangle of `TestPip` and `TestPip32`. -/
def rectangle : Polygon :=
  ⟨[⟨1, 1⟩, ⟨1, 2⟩, ⟨2, 2⟩, ⟨2, 1⟩]⟩

/-- The rectangle of `TestPip` with the same boundary order, listed from its
vertex `(2,1)`. -/
def rectangleFrom21 : Polygon :=
  ⟨[⟨2, 1⟩, ⟨1, 1⟩, ⟨1, 2⟩, ⟨2, 2⟩]⟩

/-- The polygon of `BenchmarkPipOneMillion`. -/
def benchPolygon : Polygon :=
  ⟨[⟨0, 0⟩, ⟨30, 50⟩, ⟨0, 100⟩, ⟨50, 70⟩, ⟨100, 100⟩, ⟨70, 50⟩, ⟨100, 0⟩, ⟨50, 30⟩]⟩

/-- A triangle whose closing edge, from `(3,1)` back to `(2,3)`, is its right
side. -/
def triangle : Polygon :=
  ⟨[⟨2, 3⟩, ⟨1, 1⟩, ⟨3, 1⟩]⟩

/-- A polygon with two vertices. -/
def twoGon : Polygon :=
  ⟨[⟨1, 1⟩, ⟨3, 3⟩]⟩

/-! ## The index loop and its list form agree -/

/-- The index loop entered at `i = j + 1` is the list recursion on the vertices
from index `i` on, with `verts[j]` as trailing vertex. -/
theorem edgeLoop_eq_walk (pt : Point) (verts : List Point) :
    ∀ (n i j : Nat) (hj : j < i) (b : Bool), i = j + 1 → n = verts.length - i →
      ∀ hjl : j < verts.length,
        edgeLoop pt verts i j hj b = walk pt (verts.get ⟨j, hjl⟩) (verts.drop i) b := by
  intro n
  induction n with
  | zero =>
    intro i j hj b hij hn hjl
    have hle : verts.length ≤ i := by omega
    rw [edgeLoop, dif_neg (by omega), List.drop_eq_nil_of_le hle, walk]
  | succ n ih =>
    intro i j hj b hij hn hjl
    have hlt : i < verts.length := by omega
    rw [edgeLoop, dif_pos hlt, List.drop_eq_getElem_cons hlt, walk]
    rw [ih (i + 1) i (Nat.lt_succ_self i) _ rfl (by omega) hlt]
    simp [List.get_eq_getElem]

/-- The index loop from its initial state is `walkFrom`. -/
theorem edgeLoop_eq_walkFrom (pt : Point) (verts : List Point) :
    edgeLoop pt verts 1 0 Nat.zero_lt_one false = walkFrom pt verts := by
  cases verts with
  | nil => rw [edgeLoop, dif_neg (by simp), walkFrom]
  | cons v0 rest =>
    rw [edgeLoop_eq_walk pt (v0 :: rest) _ 1 0 Nat.zero_lt_one false rfl rfl (by simp)]
    simp [walkFrom]


/-! ## Lemmas on the bounding-box loop -/

/-- A running minimum is below its start value and below every element. -/
theorem foldl_min_le (l : List ℚ) : ∀ a : ℚ, l.foldl min a ≤ a ∧ ∀ x ∈ l, l.foldl min a ≤ x := by
  induction l with
  | nil => intro a; simp
  | cons y ys ih =>
    intro a
    obtain ⟨h1, h2⟩ := ih (min a y)
    refine ⟨le_trans h1 (min_le_left a y), ?_⟩
    intro x hx
    rcases List.mem_cons.mp hx with rfl | hx
    · exact le_trans h1 (min_le_right a x)
    · exact h2 x hx

/-- A running maximum is above its start value and above every element. -/
theorem le_foldl_max (l : List ℚ) : ∀ a : ℚ, a ≤ l.foldl max a ∧ ∀ x ∈ l, x ≤ l.foldl max a := by
  induction l with
  | nil => intro a; simp
  | cons y ys ih =>
    intro a
    obtain ⟨h1, h2⟩ := ih (max a y)
    refine ⟨le_trans (le_max_left a y) h1, ?_⟩
    intro x hx
    rcases List.mem_cons.mp hx with rfl | hx
    · exact le_trans (le_max_right a x) h1
    · exact h2 x hx

/-- A running minimum is its start value or one of the elements. -/
theorem foldl_min_mem (l : List ℚ) : ∀ a : ℚ, l.foldl min a ∈ a :: l := by
  induction l with
  | nil => intro a; simp
  | cons y ys ih =>
    intro a
    rw [List.foldl_cons]
    rcases List.mem_cons.mp (ih (min a y)) with h | h
    · rcases min_choice a y with hm | hm <;> rw [h, hm] <;> simp
    · exact List.mem_cons_of_mem a (List.mem_cons_of_mem y h)

/-- A running maximum is its start value or one of the elements. -/
theorem foldl_max_mem (l : List ℚ) : ∀ a : ℚ, l.foldl max a ∈ a :: l := by
  induction l with
  | nil => intro a; simp
  | cons y ys ih =>
    intro a
    rw [List.foldl_cons]
    rcases List.mem_cons.mp (ih (max a y)) with h | h
    · rcases max_choice a y with hm | hm <;> rw [h, hm] <;> simp
    · exact List.mem_cons_of_mem a (List.mem_cons_of_mem y h)

/-- The box of `trueExtent` holds every vertex, and each of its four
coordinates is the coordinate of a vertex: it is the smallest such box. -/
theorem trueExtent_spec (pts : List Point) (bb : BoundingBox) (h : trueExtent pts = some bb) :
    (∀ p ∈ pts, bb.BottomLeft.X ≤ p.X ∧ p.X ≤ bb.TopRight.X ∧
      bb.BottomLeft.Y ≤ p.Y ∧ p.Y ≤ bb.TopRight.Y) ∧
    bb.BottomLeft.X ∈ pts.map Point.X ∧ bb.TopRight.X ∈ pts.map Point.X ∧
    bb.BottomLeft.Y ∈ pts.map Point.Y ∧ bb.TopRight.Y ∈ pts.map Point.Y := by
  cases pts with
  | nil => simp [trueExtent] at h
  | cons v vs =>
    simp only [trueExtent, Option.some.injEq] at h
    subst h
    refine ⟨?_, ?_, ?_, ?_, ?_⟩
    · intro p hp
      rcases List.mem_cons.mp hp with rfl | hp
      · exact ⟨(foldl_min_le _ _).1, (le_foldl_max _ _).1, (foldl_min_le _ _).1,
          (le_foldl_max _ _).1⟩
      · exact ⟨(foldl_min_le _ _).2 _ (List.mem_map_of_mem Point.X hp),
          (le_foldl_max _ _).2 _ (List.mem_map_of_mem Point.X hp),
          (foldl_min_le _ _).2 _ (List.mem_map_of_mem Point.Y hp),
          (le_foldl_max _ _).2 _ (List.mem_map_of_mem Point.Y hp)⟩
    · exact foldl_min_mem _ _
    · exact foldl_max_mem _ _
    · exact foldl_min_mem _ _
    · exact foldl_max_mem _ _

/-- Each accumulator of the loop stays inside any set of numbers that holds it
at the start and holds the coordinates of the vertices still to come. -/
theorem foldl_bbStep_mem (AX AY : ℚ → Prop) (l : List Point) :
    ∀ acc : Extent, (∀ p ∈ l, AX p.X ∧ AY p.Y) →
      AX acc.maxX → AY acc.maxY → AX acc.minX → AY acc.minY →
      AX (l.foldl bbStep acc).maxX ∧ AY (l.foldl bbStep acc).maxY ∧
        AX (l.foldl bbStep acc).minX ∧ AY (l.foldl bbStep acc).minY := by
  induction l with
  | nil => intro acc _ h1 h2 h3 h4; exact ⟨h1, h2, h3, h4⟩
  | cons p ps ih =>
    intro acc hl h1 h2 h3 h4
    have hp := hl p (List.mem_cons_self p ps)
    rw [List.foldl_cons]
    apply ih
    · intro q hq; exact hl q (List.mem_cons_of_mem p hq)
    all_goals
      simp only [bbStep]
      split_ifs <;> first | exact hp.1 | exact hp.2 | assumption

/-- After a first vertex the four accumulators are coordinates of vertices. -/
theorem bbLoop_cons_mem (AX AY : ℚ → Prop) (v : Point) (vs : List Point)
    (h : ∀ p ∈ v :: vs, AX p.X ∧ AY p.Y) :
    AX (bbLoop (v :: vs)).maxX ∧ AY (bbLoop (v :: vs)).maxY ∧
      AX (bbLoop (v :: vs)).minX ∧ AY (bbLoop (v :: vs)).minY := by
  have hv := h v (List.mem_cons_self v vs)
  rw [bbLoop, List.foldl_cons]
  apply foldl_bbStep_mem AX AY vs
  · intro q hq; exact h q (List.mem_cons_of_mem v hq)
  all_goals simp [bbStep, hv.1, hv.2]


/-! ## Helper lemmas on the loop of PointInPolygon -/

/-- The box that `GetBoundingBox` computes for the rectangle of the tests. -/
theorem GetBoundingBox_rectangle :
    GetBoundingBox rectangle = ⟨⟨1, 1⟩, ⟨2, 2⟩⟩ := by
  simp [GetBoundingBox, bbLoop, bbStep, rectangle]

/-- The early return of `PointInPolygon` as a conjunction: the box test, and the
loop over the edges. -/
theorem PointInPolygon_eq (pt : Point) (poly : Polygon) :
    PointInPolygon pt poly =
      (PointInBoundingBox pt (GetBoundingBox poly) && walkFrom pt poly.Points) := by
  unfold PointInPolygon
  rw [edgeLoop_eq_walkFrom]
  cases h : PointInBoundingBox pt (GetBoundingBox poly) <;> simp [h]

/-- On the rectangle of the tests `PointInPolygon` is the open unit square at
`(1,1)`. -/
theorem PointInPolygon_rectangle_iff (p : Point) :
    PointInPolygon p rectangle = true ↔ (1 < p.X ∧ p.X < 2 ∧ 1 < p.Y ∧ p.Y < 2) := by
  rw [PointInPolygon_eq, GetBoundingBox_rectangle, Bool.and_eq_true]
  constructor
  · rintro ⟨hbb, -⟩
    simp only [PointInBoundingBox, Bool.and_eq_true, decide_eq_true_eq, gt_iff_lt] at hbb
    exact ⟨hbb.1.1.2, hbb.1.1.1, hbb.2, hbb.1.2⟩
  · rintro ⟨h1, h2, h3, h4⟩
    constructor
    · simp [PointInBoundingBox, h1, h2, h3, h4]
    · simp [rectangle, walkFrom, walk, crossing, h1, h2, h3, h4, not_lt.mpr h3.le,
        not_lt.mpr h1.le]

/-- At an index inside the list, `crossingAt` is the condition of the loop body
on `verts[i]` and `verts[i-1]`. -/
theorem crossingAt_eq (pt : Point) (verts : List Point) (i j : Nat) (hij : i = j + 1)
    (h : i < verts.length) :
    crossingAt pt verts i =
      crossing pt (verts.get ⟨i, h⟩) (verts.get ⟨j, by omega⟩) := by
  subst hij
  have hj : j < verts.length := by omega
  simp only [crossingAt, crossing, Nat.add_sub_cancel, List.getD_eq_getElem _ _ h,
    List.getD_eq_getElem _ _ hj, List.get_eq_getElem]
  congr 1
  by_cases a : verts[j + 1].Y > pt.Y <;> by_cases b : verts[j].Y > pt.Y <;> simp [a, b]

/-- The index loop entered at `i = j + 1` flips the flag once for every index
from `i` to `N-1` that passes `crossingAt`. -/
theorem edgeLoop_parity (pt : Point) (verts : List Point) :
    ∀ (n i j : Nat) (hj : j < i) (b : Bool), i = j + 1 → n = verts.length - i →
      edgeLoop pt verts i j hj b =
        xor b (decide (Odd ((List.Ico i verts.length).filter (crossingAt pt verts)).length)) := by
  intro n
  induction n with
  | zero =>
    intro i j hj b hij hn
    have hle : verts.length ≤ i := by omega
    rw [edgeLoop, dif_neg (by omega), List.Ico.eq_nil_of_le hle]
    simp
  | succ n ih =>
    intro i j hj b hij hn
    have hlt : i < verts.length := by omega
    rw [edgeLoop, dif_pos hlt, ih (i + 1) i (Nat.lt_succ_self i) _ rfl (by omega),
      List.Ico.eq_cons hlt, List.filter_cons, crossingAt_eq pt verts i j hij hlt]
    cases hc : crossing pt (verts.get ⟨i, hlt⟩) (verts.get ⟨j, Nat.lt_trans hj hlt⟩)
    · simp
    · simp only [if_true, List.length_cons, Nat.odd_add_one]
      by_cases ho : Odd ((List.Ico (i + 1) verts.length).filter (crossingAt pt verts)).length <;>
        cases b <;> simp [ho]

/-- The four comparisons of `PointInBoundingBox`. -/
theorem PointInBoundingBox_iff (pt : Point) (bb : BoundingBox) :
    PointInBoundingBox pt bb = true ↔
      (bb.BottomLeft.X < pt.X ∧ pt.X < bb.TopRight.X) ∧
        (bb.BottomLeft.Y < pt.Y ∧ pt.Y < bb.TopRight.Y) := by
  simp only [PointInBoundingBox, Bool.and_eq_true, decide_eq_true_eq, gt_iff_lt]
  tauto

/-! ## Helper lemmas on the extent and on interleavings -/

/-- Every interleaving is a permutation of the concatenated lists. -/
theorem Interleaving.perm {α : Type} {ls : List (List α)} {out : List α}
    (h : Interleaving ls out) : out.Perm ls.flatten := by
  induction h with
  | done ls hnil =>
    have : ls.flatten = [] := by
      rw [List.flatten_eq_nil_iff]; exact hnil
    rw [this]
  | step pre post x l out _ ih =>
    have h1 : (pre ++ (x :: l) :: post).flatten = pre.flatten ++ x :: (l ++ post.flatten) := by
      simp
    have h2 : (pre ++ l :: post).flatten = pre.flatten ++ (l ++ post.flatten) := by
      simp
    rw [h1]
    rw [h2] at ih
    exact (List.Perm.cons x ih).trans List.perm_middle.symm

/-- Without vertices the accumulators keep their initial value zero. -/
theorem bbLoop_nil : bbLoop [] = ⟨0, 0, 0, 0⟩ := rfl

/-- For a polygon with a vertex, the box that the loop computes lies within the
least and greatest coordinates of the vertices. -/
theorem bbLoop_within_trueExtent (v : Point) (vs : List Point) :
    (vs.map Point.X).foldl min v.X ≤ (bbLoop (v :: vs)).minX ∧
      (bbLoop (v :: vs)).maxX ≤ (vs.map Point.X).foldl max v.X ∧
      (vs.map Point.Y).foldl min v.Y ≤ (bbLoop (v :: vs)).minY ∧
      (bbLoop (v :: vs)).maxY ≤ (vs.map Point.Y).foldl max v.Y := by
  have key := bbLoop_cons_mem
    (fun x => (vs.map Point.X).foldl min v.X ≤ x ∧ x ≤ (vs.map Point.X).foldl max v.X)
    (fun y => (vs.map Point.Y).foldl min v.Y ≤ y ∧ y ≤ (vs.map Point.Y).foldl max v.Y)
    v vs (by
      intro p hp
      rcases List.mem_cons.mp hp with rfl | hp
      · exact ⟨⟨(foldl_min_le _ _).1, (le_foldl_max _ _).1⟩,
          ⟨(foldl_min_le _ _).1, (le_foldl_max _ _).1⟩⟩
      · exact ⟨⟨(foldl_min_le _ _).2 _ (List.mem_map_of_mem Point.X hp),
            (le_foldl_max _ _).2 _ (List.mem_map_of_mem Point.X hp)⟩,
          ⟨(foldl_min_le _ _).2 _ (List.mem_map_of_mem Point.Y hp),
            (le_foldl_max _ _).2 _ (List.mem_map_of_mem Point.Y hp)⟩⟩)
  exact ⟨key.2.2.1.1, key.1.2, key.2.2.2.1, key.2.1.2⟩

/-- Three points and two workers under a ceiling of four: the batches are
`pts[0:1]` and `pts[1:2]`. -/
theorem parallelBatches_three_two :
    parallelBatches 4 4 [⟨3/2, 3/2⟩, ⟨5/4, 5/4⟩, ⟨7/4, 7/4⟩] 2 =
      some [[⟨3/2, 3/2⟩], [⟨5/4, 5/4⟩]] := by
  simp [parallelBatches, MaxParallelism, launchLoop, goSlice]

/-! ## Lemmas on the bounding box without zero coordinates, and on its order -/

/-- With both arguments non-zero the sentinel test is idle. -/
theorem foldl_bbStep_eq_minmax (l : List Point) :
    ∀ acc : Extent, (∀ p ∈ l, p.X ≠ 0 ∧ p.Y ≠ 0) →
      acc.maxX ≠ 0 → acc.maxY ≠ 0 → acc.minX ≠ 0 → acc.minY ≠ 0 →
      l.foldl bbStep acc =
        ⟨(l.map Point.X).foldl max acc.maxX, (l.map Point.Y).foldl max acc.maxY,
          (l.map Point.X).foldl min acc.minX, (l.map Point.Y).foldl min acc.minY⟩ := by
  induction l with
  | nil => intro acc _ _ _ _ _; rfl
  | cons p ps ih =>
    intro acc hl h1 h2 h3 h4
    have hp := hl p (List.mem_cons_self p ps)
    have e1 : (bbStep acc p).maxX = max acc.maxX p.X := by
      simp only [bbStep, h1, or_false, gt_iff_lt]
      rcases lt_or_le acc.maxX p.X with h | h
      · rw [if_pos h, max_eq_right h.le]
      · rw [if_neg (not_lt.mpr h), max_eq_left h]
    have e2 : (bbStep acc p).maxY = max acc.maxY p.Y := by
      simp only [bbStep, h2, or_false, gt_iff_lt]
      rcases lt_or_le acc.maxY p.Y with h | h
      · rw [if_pos h, max_eq_right h.le]
      · rw [if_neg (not_lt.mpr h), max_eq_left h]
    have e3 : (bbStep acc p).minX = min acc.minX p.X := by
      simp only [bbStep, h3, or_false]
      rcases lt_or_le p.X acc.minX with h | h
      · rw [if_pos h, min_eq_right h.le]
      · rw [if_neg (not_lt.mpr h), min_eq_left h]
    have e4 : (bbStep acc p).minY = min acc.minY p.Y := by
      simp only [bbStep, h4, or_false]
      rcases lt_or_le p.Y acc.minY with h | h
      · rw [if_pos h, min_eq_right h.le]
      · rw [if_neg (not_lt.mpr h), min_eq_left h]
    rw [List.foldl_cons, ih (bbStep acc p) (fun q hq => hl q (List.mem_cons_of_mem p hq))
      (by rw [e1]; rcases max_choice acc.maxX p.X with h | h <;> rw [h] <;> [exact h1; exact hp.1])
      (by rw [e2]; rcases max_choice acc.maxY p.Y with h | h <;> rw [h] <;> [exact h2; exact hp.2])
      (by rw [e3]; rcases min_choice acc.minX p.X with h | h <;> rw [h] <;> [exact h3; exact hp.1])
      (by rw [e4]; rcases min_choice acc.minY p.Y with h | h <;> rw [h] <;> [exact h4; exact hp.2]),
      e1, e2, e3, e4]
    simp only [List.map_cons, List.foldl_cons]

/-- The strict loop started at a vertex keeps running minima and maxima. -/
theorem foldl_bbStepStrict_eq_minmax (l : List Point) :
    ∀ acc : Extent, l.foldl bbStepStrict acc =
        ⟨(l.map Point.X).foldl max acc.maxX, (l.map Point.Y).foldl max acc.maxY,
          (l.map Point.X).foldl min acc.minX, (l.map Point.Y).foldl min acc.minY⟩ := by
  induction l with
  | nil => intro acc; rfl
  | cons p ps ih =>
    intro acc
    have e1 : (bbStepStrict acc p).maxX = max acc.maxX p.X := by
      simp only [bbStepStrict, gt_iff_lt]
      rcases lt_or_le acc.maxX p.X with h | h
      · rw [if_pos h, max_eq_right h.le]
      · rw [if_neg (not_lt.mpr h), max_eq_left h]
    have e2 : (bbStepStrict acc p).maxY = max acc.maxY p.Y := by
      simp only [bbStepStrict, gt_iff_lt]
      rcases lt_or_le acc.maxY p.Y with h | h
      · rw [if_pos h, max_eq_right h.le]
      · rw [if_neg (not_lt.mpr h), max_eq_left h]
    have e3 : (bbStepStrict acc p).minX = min acc.minX p.X := by
      simp only [bbStepStrict]
      rcases lt_or_le p.X acc.minX with h | h
      · rw [if_pos h, min_eq_right h.le]
      · rw [if_neg (not_lt.mpr h), min_eq_left h]
    have e4 : (bbStepStrict acc p).minY = min acc.minY p.Y := by
      simp only [bbStepStrict]
      rcases lt_or_le p.Y acc.minY with h | h
      · rw [if_pos h, min_eq_right h.le]
      · rw [if_neg (not_lt.mpr h), min_eq_left h]
    rw [List.foldl_cons, ih (bbStepStrict acc p), e1, e2, e3, e4]
    simp only [List.map_cons, List.foldl_cons]

/-- The first pass of the loop copies the first vertex into all accumulators. -/
theorem bbStep_zero (v : Point) : bbStep ⟨0, 0, 0, 0⟩ v = ⟨v.X, v.Y, v.X, v.Y⟩ := by
  simp [bbStep]

/-- Without a zero coordinate, the loop of `GetBoundingBox` yields the running
minima and maxima started at the first vertex. -/
theorem bbLoop_cons_of_nonzero (v : Point) (vs : List Point)
    (hz : ∀ p ∈ v :: vs, p.X ≠ 0 ∧ p.Y ≠ 0) :
    bbLoop (v :: vs) =
      ⟨(vs.map Point.X).foldl max v.X, (vs.map Point.Y).foldl max v.Y,
        (vs.map Point.X).foldl min v.X, (vs.map Point.Y).foldl min v.Y⟩ := by
  have hv := hz v (List.mem_cons_self v vs)
  rw [bbLoop, List.foldl_cons, bbStep_zero,
    foldl_bbStep_eq_minmax vs _ (fun q hq => hz q (List.mem_cons_of_mem v hq))
      hv.1 hv.2 hv.1 hv.2]

/-- Without a zero coordinate and with at least one vertex, `GetBoundingBox`
is the true extent. -/
theorem getBoundingBox_eq_trueExtent (poly : Polygon) (hN : poly.Points ≠ [])
    (hz : ∀ p ∈ poly.Points, p.X ≠ 0 ∧ p.Y ≠ 0) :
    trueExtent poly.Points = some (GetBoundingBox poly) := by
  rcases hP : poly.Points with _ | ⟨v, vs⟩
  · exact absurd hP hN
  · rw [hP] at hz
    simp only [trueExtent, GetBoundingBox, hP, bbLoop_cons_of_nonzero v vs hz]

/-- One pass of the loop keeps each minimum below the maximum on its axis. -/
theorem bbStep_ordered (acc : Extent) (p : Point)
    (hx : acc.minX ≤ acc.maxX) (hy : acc.minY ≤ acc.maxY) :
    (bbStep acc p).minX ≤ (bbStep acc p).maxX ∧ (bbStep acc p).minY ≤ (bbStep acc p).maxY := by
  constructor
  · simp only [bbStep, gt_iff_lt]
    split_ifs with h1 h2 h2
    · exact le_refl _
    · push_neg at h2; exact h2.1
    · push_neg at h1; exact h1.1
    · exact hx
  · simp only [bbStep, gt_iff_lt]
    split_ifs with h1 h2 h2
    · exact le_refl _
    · push_neg at h2; exact h2.1
    · push_neg at h1; exact h1.1
    · exact hy

/-- The loop keeps each minimum below the maximum on its axis. -/
theorem foldl_bbStep_ordered (l : List Point) :
    ∀ acc : Extent, acc.minX ≤ acc.maxX → acc.minY ≤ acc.maxY →
      (l.foldl bbStep acc).minX ≤ (l.foldl bbStep acc).maxX ∧
        (l.foldl bbStep acc).minY ≤ (l.foldl bbStep acc).maxY := by
  induction l with
  | nil => intro acc hx hy; exact ⟨hx, hy⟩
  | cons p ps ih =>
    intro acc hx hy
    rw [List.foldl_cons]
    exact ih (bbStep acc p) (bbStep_ordered acc p hx hy).1 (bbStep_ordered acc p hx hy).2

/-! ## Lemmas on the direction of the walk and on the checked loop -/

/-- The condition of the loop body does not depend on the direction of the
edge. -/
theorem crossing_symm (pt a b : Point) : crossing pt a b = crossing pt b a := by
  unfold crossing
  have hc : ∀ x y : Bool, (x != y) = (y != x) := by decide
  by_cases hs : (decide (a.Y > pt.Y) != decide (b.Y > pt.Y)) = true
  · have hs' : (decide (b.Y > pt.Y) != decide (a.Y > pt.Y)) = true := by
      rw [hc]; exact hs
    have hne : a.Y ≠ b.Y := by
      intro h
      rw [h] at hs
      simp at hs
    have h1 : b.Y - a.Y ≠ 0 := sub_ne_zero.mpr (Ne.symm hne)
    have h2 : a.Y - b.Y ≠ 0 := sub_ne_zero.mpr hne
    have hx : (b.X - a.X) * (pt.Y - a.Y) / (b.Y - a.Y) + a.X =
        (a.X - b.X) * (pt.Y - b.Y) / (a.Y - b.Y) + b.X := by
      field_simp
      ring
    rw [hs, hs', hx]
  · have hs' : ¬ (decide (b.Y > pt.Y) != decide (a.Y > pt.Y)) = true := by
      rw [hc]; exact hs
    rw [Bool.not_eq_true] at hs hs'
    rw [hs, hs', Bool.false_and, Bool.false_and]

/-- The list form of the loop flips the flag by the parity of the chain. -/
theorem walk_eq_chainParity (pt : Point) (rest : List Point) :
    ∀ (a : Point) (b : Bool), walk pt a rest b = xor b (chainParity pt (a :: rest)) := by
  induction rest with
  | nil => intro a b; simp [walk, chainParity]
  | cons c cs ih =>
    intro a b
    rw [walk, ih, chainParity]
    cases crossing pt c a <;> cases b <;> simp

/-- The loop from its initial state yields the parity of the chain. -/
theorem walkFrom_eq_chainParity (pt : Point) (l : List Point) :
    walkFrom pt l = chainParity pt l := by
  cases l with
  | nil => rfl
  | cons a rest => rw [walkFrom, walk_eq_chainParity]; simp

/-- Appending a vertex adds the edge from the former last vertex to it. -/
theorem chainParity_append (pt : Point) (x y : Point) (l : List Point) :
    chainParity pt (l ++ [y, x]) = xor (chainParity pt (l ++ [y])) (crossing pt x y) := by
  induction l with
  | nil => simp [chainParity]
  | cons a as ih =>
    cases as with
    | nil =>
      simp only [List.cons_append, List.nil_append, chainParity]
      simp
    | cons b bs =>
      simp only [List.cons_append] at ih ⊢
      rw [chainParity, ih, chainParity]
      simp only [Bool.xor_assoc]

/-- The parity of the chain does not depend on the direction of traversal. -/
theorem chainParity_reverse (pt : Point) (l : List Point) :
    chainParity pt l.reverse = chainParity pt l := by
  induction l with
  | nil => rfl
  | cons a as ih =>
    cases as with
    | nil => rfl
    | cons b bs =>
      have h : (a :: b :: bs).reverse = bs.reverse ++ [b, a] := by simp
      have h' : (b :: bs).reverse = bs.reverse ++ [b] := by simp
      rw [h, chainParity_append, ← h', ih, chainParity, crossing_symm pt a b, Bool.xor_comm]

/-- Two vertex lists with the same vertices have the same true extent. -/
theorem trueExtent_congr (l1 l2 : List Point) (b1 b2 : BoundingBox)
    (h1 : trueExtent l1 = some b1) (h2 : trueExtent l2 = some b2)
    (hmem : ∀ p, p ∈ l1 ↔ p ∈ l2) : b1 = b2 := by
  obtain ⟨a1, a2, a3, a4, a5⟩ := trueExtent_spec l1 b1 h1
  obtain ⟨c1, c2, c3, c4, c5⟩ := trueExtent_spec l2 b2 h2
  rw [List.mem_map] at a2 a3 a4 a5 c2 c3 c4 c5
  obtain ⟨p2, hp2, e2⟩ := a2
  obtain ⟨p3, hp3, e3⟩ := a3
  obtain ⟨p4, hp4, e4⟩ := a4
  obtain ⟨p5, hp5, e5⟩ := a5
  obtain ⟨q2, hq2, f2⟩ := c2
  obtain ⟨q3, hq3, f3⟩ := c3
  obtain ⟨q4, hq4, f4⟩ := c4
  obtain ⟨q5, hq5, f5⟩ := c5
  have x1 : b1.BottomLeft.X = b2.BottomLeft.X :=
    le_antisymm (f2 ▸ (a1 q2 ((hmem q2).mpr hq2)).1) (e2 ▸ (c1 p2 ((hmem p2).mp hp2)).1)
  have x2 : b1.TopRight.X = b2.TopRight.X :=
    le_antisymm (e3 ▸ (c1 p3 ((hmem p3).mp hp3)).2.1) (f3 ▸ (a1 q3 ((hmem q3).mpr hq3)).2.1)
  have y1 : b1.BottomLeft.Y = b2.BottomLeft.Y :=
    le_antisymm (f4 ▸ (a1 q4 ((hmem q4).mpr hq4)).2.2.1) (e4 ▸ (c1 p4 ((hmem p4).mp hp4)).2.2.1)
  have y2 : b1.TopRight.Y = b2.TopRight.Y :=
    le_antisymm (e5 ▸ (c1 p5 ((hmem p5).mp hp5)).2.2.2) (f5 ▸ (a1 q5 ((hmem q5).mpr hq5)).2.2.2)
  rcases b1 with ⟨⟨u1, u2⟩, ⟨u3, u4⟩⟩
  rcases b2 with ⟨⟨w1, w2⟩, ⟨w3, w4⟩⟩
  simp only at x1 x2 y1 y2
  rw [x1, x2, y1, y2]

/-- The checked condition never meets a zero divisor: a horizontal edge fails
the first conjunct. -/
theorem crossingChecked_eq (pt vi vj : Point) :
    crossingChecked pt vi vj = some (crossing pt vi vj) := by
  unfold crossingChecked crossing
  by_cases hs : (decide (vi.Y > pt.Y) != decide (vj.Y > pt.Y)) = true
  · have hne : vj.Y - vi.Y ≠ 0 := by
      intro h
      rw [sub_eq_zero] at h
      rw [h] at hs
      simp at hs
    rw [if_pos hs, if_neg hne, hs, Bool.true_and]
  · rw [if_neg hs]
    rw [Bool.not_eq_true] at hs
    rw [hs, Bool.false_and]

/-- The checked loop never meets a zero divisor: it ends with the value of the
loop of `PointInPolygon`. -/
theorem edgeLoopChecked_eq (pt : Point) (verts : List Point) :
    ∀ (n i j : Nat) (hj : j < i) (b : Bool), n = verts.length - i →
      edgeLoopChecked pt verts i j hj b = some (edgeLoop pt verts i j hj b) := by
  intro n
  induction n with
  | zero =>
    intro i j hj b hn
    rw [edgeLoopChecked, edgeLoop, dif_neg (by omega), dif_neg (by omega)]
  | succ n ih =>
    intro i j hj b hn
    have hlt : i < verts.length := by omega
    rw [edgeLoopChecked, edgeLoop, dif_pos hlt, dif_pos hlt, crossingChecked_eq]
    exact ih (i + 1) i (Nat.lt_succ_self i) _ (by omega)

/-! ## Lemmas on the launching loop -/

/-- The batch of worker `k` (counted from 1) when every batch has `q` points. -/
theorem goSlice_batch (pts : List Point) (q k w : Nat) (hk : 1 ≤ k) (hkw : k ≤ w)
    (hq : q * w ≤ pts.length) :
    goSlice pts (q * (k - 1)) (q * k) = some ((pts.drop (q * (k - 1))).take q) := by
  have h1 : q * (k - 1) ≤ q * k := Nat.mul_le_mul_left q (Nat.sub_le k 1)
  have h2 : q * k ≤ pts.length := le_trans (Nat.mul_le_mul_left q hkw) hq
  have h3 : q * k - q * (k - 1) = q := by
    rw [← Nat.mul_sub, Nat.sub_sub_self hk, Nat.mul_one]
  rw [goSlice, if_pos ⟨h1, h2⟩, h3]

/-- The launching loop with at least one worker, entered at worker `i` with
`start` at the end of the batch before, launches the remaining workers on
consecutive batches of `len(pts) / numcores` points. -/
theorem launchLoop_eq (pts : List Point) (w : Nat) (hw : 1 ≤ w) :
    ∀ (n i : Nat), n = w + 1 - i → 1 ≤ i →
      launchLoop pts w i ((pts.length / w) * (i - 1)) =
        some ((List.range' i n).map
          (fun k => (pts.drop ((pts.length / w) * (k - 1))).take (pts.length / w))) := by
  intro n
  induction n with
  | zero =>
    intro i hn hi
    rw [launchLoop, if_neg (by omega)]
    rfl
  | succ n ih =>
    intro i hn hi
    have hiw : i ≤ w := by omega
    have hrec := ih (i + 1) (by omega) (by omega)
    rw [Nat.add_sub_cancel] at hrec
    rw [launchLoop, if_pos hiw, if_neg (by omega)]
    simp only [goSlice_batch pts _ i w hi hiw (Nat.div_mul_le_self _ _), hrec]
    rfl

/-- The launching loop does nothing for a worker count of zero. -/
theorem launchLoop_zero (pts : List Point) : launchLoop pts 0 1 0 = some [] := by
  rw [launchLoop, if_neg (by omega)]

/-- Consecutive batches of `q` points make up the first `q * n` points. -/
theorem flatten_batches (pts : List Point) (q : Nat) :
    ∀ n : Nat, ((List.range' 1 n).map (fun k => (pts.drop (q * (k - 1))).take q)).flatten =
      pts.take (q * n) := by
  intro n
  induction n with
  | zero => simp
  | succ n ih =>
    rw [List.range'_concat, List.map_append, List.flatten_append, ih, Nat.mul_succ,
      List.take_add]
    simp

/-- The batches for an effective worker count `w ≥ 1`. -/
theorem parallelBatches_eq (maxProcs numCPU numcores : Int) (pts : List Point) (w : Nat)
    (hw : 1 ≤ w)
    (heff : (if numcores > MaxParallelism maxProcs numCPU then MaxParallelism maxProcs numCPU
      else numcores) = (w : Int)) :
    parallelBatches maxProcs numCPU pts numcores =
      some ((List.range' 1 w).map
        (fun k => (pts.drop ((pts.length / w) * (k - 1))).take (pts.length / w))) := by
  have h := launchLoop_eq pts w hw w 1 (by omega) (le_refl 1)
  simp only [Nat.sub_self, Nat.mul_zero] at h
  simp only [parallelBatches, heff]
  rw [if_neg (by omega), Int.toNat_ofNat, h]

/-- The batches for an effective worker count of zero. -/
theorem parallelBatches_zero (maxProcs numCPU numcores : Int) (pts : List Point)
    (heff : (if numcores > MaxParallelism maxProcs numCPU then MaxParallelism maxProcs numCPU
      else numcores) = 0) :
    parallelBatches maxProcs numCPU pts numcores = some [] := by
  simp only [parallelBatches, heff]
  rw [if_neg (by omega)]
  exact launchLoop_zero pts

/-! ## The bounding box over exact numbers -/

/-- Over exact numbers, the box of `GetBoundingBox` has its bottom-left corner
below and to the left of its top-right corner, or equal to it. -/
theorem getBoundingBox_ordered (poly : Polygon) :
    (GetBoundingBox poly).BottomLeft.X ≤ (GetBoundingBox poly).TopRight.X ∧
      (GetBoundingBox poly).BottomLeft.Y ≤ (GetBoundingBox poly).TopRight.Y :=
  foldl_bbStep_ordered poly.Points ⟨0, 0, 0, 0⟩ (le_refl 0) (le_refl 0)

/-- Over exact numbers: for the empty polygon the box of `GetBoundingBox` is
`(0,0), (0,0)`; with at least one vertex each of its four coordinates is that
coordinate of some vertex, so the box lies within the true extent. -/
theorem getBoundingBox_within_extent_exact (poly : Polygon) :
    (poly.Points = [] → GetBoundingBox poly = ⟨⟨0, 0⟩, ⟨0, 0⟩⟩) ∧
    (1 ≤ poly.Points.length →
      ((GetBoundingBox poly).BottomLeft.X ∈ poly.Points.map Point.X ∧
        (GetBoundingBox poly).BottomLeft.Y ∈ poly.Points.map Point.Y ∧
        (GetBoundingBox poly).TopRight.X ∈ poly.Points.map Point.X ∧
        (GetBoundingBox poly).TopRight.Y ∈ poly.Points.map Point.Y) ∧
      ∃ bb, trueExtent poly.Points = some bb ∧
        bb.BottomLeft.X ≤ (GetBoundingBox poly).BottomLeft.X ∧
        (GetBoundingBox poly).TopRight.X ≤ bb.TopRight.X ∧
        bb.BottomLeft.Y ≤ (GetBoundingBox poly).BottomLeft.Y ∧
        (GetBoundingBox poly).TopRight.Y ≤ bb.TopRight.Y) := by
  constructor
  · intro h
    simp only [GetBoundingBox, h, bbLoop_nil]
  · intro hN
    rcases hP : poly.Points with _ | ⟨v, vs⟩
    · rw [hP] at hN; simp at hN
    · have hm := bbLoop_cons_mem (fun x => x ∈ (v :: vs).map Point.X)
        (fun y => y ∈ (v :: vs).map Point.Y) v vs
        (fun p hp => ⟨List.mem_map_of_mem Point.X hp, List.mem_map_of_mem Point.Y hp⟩)
      obtain ⟨b1, b2, b3, b4⟩ := bbLoop_within_trueExtent v vs
      refine ⟨?_, _, rfl, ?_⟩
      · simp only [GetBoundingBox, hP]
        exact ⟨hm.2.2.1, hm.2.2.2, hm.1, hm.2.1⟩
      · simp only [GetBoundingBox, hP]
        exact ⟨b1, b2, b3, b4⟩

/-! ## The bounding box on floating-point values agrees with the one over numbers -/

/-- On numbers the loop body on floating-point values is the loop body over
exact numbers. -/
theorem bbStepFloat_toFloat (acc : Extent) (p : Point) :
    bbStepFloat acc.toFloat p.toFloat = (bbStep acc p).toFloat := by
  simp only [bbStepFloat, bbStep, Extent.toFloat, Point.toFloat, FloatVal.gt, FloatVal.lt,
    FloatVal.eqZero, ← Bool.decide_or]
  congr 1 <;> split_ifs <;> simp_all

/-- On numbers the loop on floating-point values is the loop over exact
numbers. -/
theorem foldl_bbStepFloat_toFloat (pts : List Point) :
    ∀ acc : Extent, (pts.map Point.toFloat).foldl bbStepFloat acc.toFloat =
      (pts.foldl bbStep acc).toFloat := by
  induction pts with
  | nil => intro acc; rfl
  | cons p ps ih =>
    intro acc
    rw [List.map_cons, List.foldl_cons, List.foldl_cons, bbStepFloat_toFloat, ih]

/-- On a polygon of numbers `GetBoundingBox` on floating-point values is
`GetBoundingBox` over exact numbers. -/
theorem GetBoundingBoxFloat_toFloat (poly : Polygon) :
    GetBoundingBoxFloat poly.toFloat = (GetBoundingBox poly).toFloat := by
  have h := foldl_bbStepFloat_toFloat poly.Points ⟨0, 0, 0, 0⟩
  simp only [GetBoundingBoxFloat, GetBoundingBox, bbLoopFloat, bbLoop, Polygon.toFloat,
    BoundingBox.toFloat, Point.toFloat]
  rw [show (⟨.num 0, .num 0, .num 0, .num 0⟩ : FloatExtent) = Extent.toFloat ⟨0, 0, 0, 0⟩ from rfl,
    h]
  rfl

/-- A floating-point point without not-a-number is the point of the numbers
behind it. -/
theorem toFloat_toExact (p : FloatPoint) (h : p.X ≠ .nan ∧ p.Y ≠ .nan) :
    p.toExact.toFloat = p := by
  rcases p with ⟨x, y⟩
  cases x with
  | nan => exact absurd rfl h.1
  | num a =>
    cases y with
    | nan => exact absurd rfl h.2
    | num b => rfl

/-- A floating-point polygon without not-a-number is the polygon of the
numbers behind it. -/
theorem toFloat_map_toExact (poly : FloatPolygon)
    (hnan : ∀ p ∈ poly.Points, p.X ≠ .nan ∧ p.Y ≠ .nan) :
    poly = Polygon.toFloat ⟨poly.Points.map FloatPoint.toExact⟩ := by
  rcases poly with ⟨pts⟩
  simp only [Polygon.toFloat, List.map_map, FloatPolygon.mk.injEq]
  induction pts with
  | nil => rfl
  | cons p ps ih =>
    rw [List.map_cons, Function.comp_apply, toFloat_toExact p (hnan p (List.mem_cons_self p ps)),
      ← ih (fun q hq => hnan q (List.mem_cons_of_mem p hq))]

/-! ## The claims -/

/-- Claim C1, at a concrete input.  The triangle `(2,3), (1,1), (3,1)` has three
vertices and the point `(2,2)` is inside it by the even-odd rule over its three
edges (the ray towards +x crosses the closing edge from `(3,1)` back to
`(2,3)` and no other) and passes the bounding-box test, yet `PointInPolygon`
returns false. -/
theorem pointInPolygon_misses_closing_edge :
    triangle.Points.length = 3 ∧
      evenOddInside ⟨2, 2⟩ triangle.Points = true ∧
      PointInBoundingBox ⟨2, 2⟩ (GetBoundingBox triangle) = true ∧
      PointInPolygon ⟨2, 2⟩ triangle = false := by
  refine ⟨rfl, ?_, ?_, ?_⟩
  · simp [evenOddInside, closedEdges, triangle, List.rotate, rayCrossesEdge]
    norm_num
  · simp [GetBoundingBox, bbLoop, bbStep, triangle, PointInBoundingBox]
    norm_num
  · rw [PointInPolygon_eq]
    simp [triangle, walkFrom, walk, crossing]
    norm_num

/-- Claim C2.  For the rectangle `(1,1), (1,2), (2,2), (2,1)` of the tests and
every point `p`, `PointInPolygon` is true iff `1 < p.X < 2` and `1 < p.Y < 2`;
it is true for the eight diagonal points `(1.1,1.1) .. (1.8,1.8)` and false for
the seven outside points of the tests. -/
theorem pointInPolygon_rectangle :
    (∀ p : Point, PointInPolygon p rectangle = true ↔
      (1 < p.X ∧ p.X < 2 ∧ 1 < p.Y ∧ p.Y < 2)) ∧
    (∀ p ∈ ([⟨11/10, 11/10⟩, ⟨12/10, 12/10⟩, ⟨13/10, 13/10⟩, ⟨14/10, 14/10⟩, ⟨15/10, 15/10⟩,
        ⟨16/10, 16/10⟩, ⟨17/10, 17/10⟩, ⟨18/10, 18/10⟩] : List Point),
      PointInPolygon p rectangle = true) ∧
    (∀ p ∈ ([⟨-49/10, 12/10⟩, ⟨10, 10⟩, ⟨-5, -6⟩, ⟨-13, 1⟩, ⟨49/10, -12/10⟩, ⟨10, -10⟩,
        ⟨5, 6⟩] : List Point),
      PointInPolygon p rectangle = false) := by
  refine ⟨PointInPolygon_rectangle_iff, ?_, ?_⟩
  · intro p hp
    rw [PointInPolygon_rectangle_iff]
    simp only [List.mem_cons, List.mem_singleton, List.not_mem_nil, or_false] at hp
    rcases hp with rfl | rfl | rfl | rfl | rfl | rfl | rfl | rfl <;> norm_num
  · intro p hp
    rw [← Bool.not_eq_true, PointInPolygon_rectangle_iff]
    simp only [List.mem_cons, List.mem_singleton, List.not_mem_nil, or_false] at hp
    rcases hp with rfl | rfl | rfl | rfl | rfl | rfl | rfl <;> norm_num

/-- Claim C3.  `PointInPolygon pt poly` is the conjunction of the bounding-box
test on the box of `GetBoundingBox` and the oddness of the number of indices
`i` in `1 .. N-1` whose edge between `v[i-1]` and `v[i]` passes the crossing
test; the edge from `v[N-1]` back to `v[0]` has no index and is not counted. -/
theorem pointInPolygon_eq_box_and_parity (pt : Point) (poly : Polygon) :
    PointInPolygon pt poly =
      (PointInBoundingBox pt (GetBoundingBox poly) &&
        decide (Odd (crossingCount pt poly.Points))) := by
  unfold PointInPolygon crossingCount
  rw [edgeLoop_parity pt poly.Points _ 1 0 Nat.zero_lt_one false rfl rfl]
  cases h : PointInBoundingBox pt (GetBoundingBox poly) <;> simp [h]

/-- Claim C4.  A point that is not strictly inside the rectangle spanned by the
least and greatest x and y over all vertices, or that is rejected by the test
on the box that `GetBoundingBox` computes, is classified as outside. -/
theorem pointInPolygon_false_outside_extent (pt : Point) (poly : Polygon)
    (h : (∀ bb, trueExtent poly.Points = some bb →
          ¬ ((bb.BottomLeft.X < pt.X ∧ pt.X < bb.TopRight.X) ∧
            (bb.BottomLeft.Y < pt.Y ∧ pt.Y < bb.TopRight.Y))) ∨
      PointInBoundingBox pt (GetBoundingBox poly) = false) :
    PointInPolygon pt poly = false := by
  have hbox : PointInBoundingBox pt (GetBoundingBox poly) = false := by
    rcases h with h | h
    · rw [← Bool.not_eq_true, PointInBoundingBox_iff]
      rcases hP : poly.Points with _ | ⟨v, vs⟩
      · simp only [GetBoundingBox, hP, bbLoop_nil]
        rintro ⟨⟨h1, h2⟩, -⟩
        exact lt_asymm h1 h2
      · have ht := h _ (by rw [hP]; rfl)
        obtain ⟨b1, b2, b3, b4⟩ := bbLoop_within_trueExtent v vs
        simp only [GetBoundingBox, hP]
        rintro ⟨⟨h1, h2⟩, h3, h4⟩
        exact ht ⟨⟨lt_of_le_of_lt b1 h1, lt_of_lt_of_le h2 b2⟩,
          lt_of_le_of_lt b3 h3, lt_of_lt_of_le h4 b4⟩
    · exact h
  rw [PointInPolygon_eq, hbox, Bool.false_and]

/-- Claim C4 at the polygon of the benchmark and the point `(120,50)`, which
lies to the right of every vertex. -/
theorem pointInPolygon_false_outside_extent_witness :
    ((∀ bb, trueExtent benchPolygon.Points = some bb →
        ¬ ((bb.BottomLeft.X < (120 : ℚ) ∧ (120 : ℚ) < bb.TopRight.X) ∧
          (bb.BottomLeft.Y < (50 : ℚ) ∧ (50 : ℚ) < bb.TopRight.Y))) ∨
      PointInBoundingBox ⟨120, 50⟩ (GetBoundingBox benchPolygon) = false) ∧
    PointInPolygon ⟨120, 50⟩ benchPolygon = false :=
  have h : (∀ bb, trueExtent benchPolygon.Points = some bb →
        ¬ ((bb.BottomLeft.X < (120 : ℚ) ∧ (120 : ℚ) < bb.TopRight.X) ∧
          (bb.BottomLeft.Y < (50 : ℚ) ∧ (50 : ℚ) < bb.TopRight.Y))) ∨
      PointInBoundingBox ⟨120, 50⟩ (GetBoundingBox benchPolygon) = false := by
    left
    intro bb hbb
    simp only [trueExtent, benchPolygon, Option.some.injEq] at hbb
    subst hbb
    simp
    norm_num
  ⟨h, pointInPolygon_false_outside_extent ⟨120, 50⟩ benchPolygon h⟩

/-- Claim C5, at a concrete input.  For the eight-vertex polygon of
`BenchmarkPipOneMillion` the least x and y over the vertices are `0` and `0`,
but `GetBoundingBox` returns the bottom-left corner `(50,30)`. -/
theorem getBoundingBox_benchPolygon_not_extent :
    GetBoundingBox benchPolygon = ⟨⟨50, 30⟩, ⟨100, 100⟩⟩ ∧
      trueExtent benchPolygon.Points = some ⟨⟨0, 0⟩, ⟨100, 100⟩⟩ := by
  constructor
  · simp [GetBoundingBox, bbLoop, bbStep, benchPolygon]
    norm_num
  · simp [trueExtent, benchPolygon]
    norm_num

/-- Claim C6.  `PointInBoundingBox` is true iff the point is strictly between
the two corners on both axes; a point with a coordinate equal to a bound of
the box on that axis is outside. -/
theorem pointInBoundingBox_iff_strict (pt : Point) (bb : BoundingBox) :
    (PointInBoundingBox pt bb = true ↔
      (bb.BottomLeft.X < pt.X ∧ pt.X < bb.TopRight.X) ∧
        (bb.BottomLeft.Y < pt.Y ∧ pt.Y < bb.TopRight.Y)) ∧
    ((pt.X = bb.BottomLeft.X ∨ pt.X = bb.TopRight.X ∨
        pt.Y = bb.BottomLeft.Y ∨ pt.Y = bb.TopRight.Y) →
      PointInBoundingBox pt bb = false) := by
  refine ⟨PointInBoundingBox_iff pt bb, ?_⟩
  intro h
  rw [← Bool.not_eq_true, PointInBoundingBox_iff]
  rintro ⟨⟨h1, h2⟩, h3, h4⟩
  rcases h with h | h | h | h
  · exact absurd h (ne_of_gt h1)
  · exact absurd h (ne_of_lt h2)
  · exact absurd h (ne_of_gt h3)
  · exact absurd h (ne_of_lt h4)

/-- Claim C6 at the box `(1,1), (2,2)` and the point `(1, 3/2)` on its left
side. -/
theorem pointInBoundingBox_iff_strict_witness :
    (((1 : ℚ) = 1 ∨ (1 : ℚ) = 2 ∨ (3 / 2 : ℚ) = 1 ∨ (3 / 2 : ℚ) = 2) →
      PointInBoundingBox ⟨1, 3 / 2⟩ ⟨⟨1, 1⟩, ⟨2, 2⟩⟩ = false) ∧
    PointInBoundingBox ⟨1, 3 / 2⟩ ⟨⟨1, 1⟩, ⟨2, 2⟩⟩ = false :=
  ⟨(pointInBoundingBox_iff_strict ⟨1, 3 / 2⟩ ⟨⟨1, 1⟩, ⟨2, 2⟩⟩).2, (pointInBoundingBox_iff_strict ⟨1, 3 / 2⟩ ⟨⟨1, 1⟩, ⟨2, 2⟩⟩).2 (Or.inl rfl)⟩

/-- Claim C7, at a concrete input.  With three points inside the rectangle of
the tests, two workers and a ceiling of four, all three points pass
`PointInPolygon`, but the batches are `pts[0:1]` and `pts[1:2]`: the third
point is in no result, whatever the order of the appends. -/
theorem parallel_drops_trailing_point :
    (List.filter (fun pt => PointInPolygon pt rectangle)
        [⟨3/2, 3/2⟩, ⟨5/4, 5/4⟩, ⟨7/4, 7/4⟩] = [⟨3/2, 3/2⟩, ⟨5/4, 5/4⟩, ⟨7/4, 7/4⟩]) ∧
      PointInPolygonParallel 4 4 [⟨3/2, 3/2⟩, ⟨5/4, 5/4⟩, ⟨7/4, 7/4⟩] rectangle 2 =
        some [⟨3/2, 3/2⟩, ⟨5/4, 5/4⟩] ∧
      ∀ out, ParallelOutcome 4 4 [⟨3/2, 3/2⟩, ⟨5/4, 5/4⟩, ⟨7/4, 7/4⟩] rectangle 2 out →
        (⟨7/4, 7/4⟩ : Point) ∉ out := by
  have h1 : PointInPolygon ⟨3/2, 3/2⟩ rectangle = true := by
    rw [PointInPolygon_rectangle_iff]; norm_num
  have h2 : PointInPolygon ⟨5/4, 5/4⟩ rectangle = true := by
    rw [PointInPolygon_rectangle_iff]; norm_num
  have h3 : PointInPolygon ⟨7/4, 7/4⟩ rectangle = true := by
    rw [PointInPolygon_rectangle_iff]; norm_num
  have hw : List.map (worker rectangle) [[⟨3/2, 3/2⟩], [⟨5/4, 5/4⟩]] =
      [[⟨3/2, 3/2⟩], [⟨5/4, 5/4⟩]] := by
    simp [worker, h1, h2]
  refine ⟨by simp [h1, h2, h3], ?_, ?_⟩
  · rw [PointInPolygonParallel, parallelBatches_three_two, Option.map_some', hw]
    rfl
  · rintro out ⟨batches, hb, hint⟩ hmem
    rw [parallelBatches_three_two, Option.some.injEq] at hb
    subst hb
    rw [hw] at hint
    have := hint.perm.subset hmem
    simp at this
    norm_num at this

/-- Claim C8, at a concrete input.  The rectangle of the tests listed from its
vertex `(2,1)` is convex with four vertices, the point `(3/2,3/2)` is in its
interior and strictly inside its bounding box, yet `PointInPolygon` returns
false: the crossing on its right side belongs to the closing edge. -/
theorem pointInPolygon_convex_interior_rejected :
    rectangleFrom21.Points.length = 4 ∧ isConvex rectangleFrom21.Points = true ∧
      strictlyInside ⟨3/2, 3/2⟩ rectangleFrom21.Points = true ∧
      PointInBoundingBox ⟨3/2, 3/2⟩ (GetBoundingBox rectangleFrom21) = true ∧
      PointInPolygon ⟨3/2, 3/2⟩ rectangleFrom21 = false := by
  refine ⟨rfl, ?_, ?_, ?_, ?_⟩
  · simp [isConvex, closedEdges, rectangleFrom21, List.rotate, cross]
    norm_num
  · simp [strictlyInside, closedEdges, rectangleFrom21, List.rotate, cross]
    norm_num
  · simp [GetBoundingBox, bbLoop, bbStep, rectangleFrom21, PointInBoundingBox]
    norm_num
  · rw [PointInPolygon_eq]
    simp [rectangleFrom21, walkFrom, walk, crossing]
    norm_num

/-- Claim C9.  For a polygon with fewer than two vertices `PointInPolygon`
returns false, no index passes the crossing test, and the loop leaves the
parity flag as it found it. -/
theorem pointInPolygon_degenerate (pt : Point) (poly : Polygon) (h : poly.Points.length < 2) :
    PointInPolygon pt poly = false ∧ crossingCount pt poly.Points = 0 ∧
      ∀ b : Bool, edgeLoop pt poly.Points 1 0 Nat.zero_lt_one b = b := by
  have hle : poly.Points.length ≤ 1 := by omega
  refine ⟨?_, ?_, ?_⟩
  · rw [PointInPolygon_eq]
    rcases hP : poly.Points with _ | ⟨v, _ | ⟨w, ws⟩⟩
    · simp [walkFrom]
    · simp [walkFrom, walk]
    · rw [hP] at h; simp only [List.length_cons] at h; omega
  · rw [crossingCount, List.Ico.eq_nil_of_le hle]; rfl
  · intro b
    rw [edgeLoop, dif_neg (by omega)]

/-- Claim C9 at the polygon with the single vertex `(3,4)`. -/
theorem pointInPolygon_degenerate_witness :
    (Polygon.mk [⟨3, 4⟩]).Points.length < 2 ∧
      PointInPolygon ⟨3, 4⟩ ⟨[⟨3, 4⟩]⟩ = false ∧ crossingCount ⟨3, 4⟩ [⟨3, 4⟩] = 0 :=
  ⟨by decide, (pointInPolygon_degenerate ⟨3, 4⟩ ⟨[⟨3, 4⟩]⟩ (by decide)).1, (pointInPolygon_degenerate ⟨3, 4⟩ ⟨[⟨3, 4⟩]⟩ (by decide)).2.1⟩

/-- Claim C10, at a concrete input.  For the polygon of the benchmark and the
point `(40,55)` the box test on the box of `GetBoundingBox` fails while the
loop over the tested edges yields true, as does the even-odd rule over all
edges, so `PointInPolygon` returns false where the loop alone returns true. -/
theorem prefilter_changes_verdict :
    PointInBoundingBox ⟨40, 55⟩ (GetBoundingBox benchPolygon) = false ∧
      edgeLoop ⟨40, 55⟩ benchPolygon.Points 1 0 Nat.zero_lt_one false = true ∧
      evenOddInside ⟨40, 55⟩ benchPolygon.Points = true ∧
      PointInPolygon ⟨40, 55⟩ benchPolygon = false := by
  have hbox : PointInBoundingBox ⟨40, 55⟩ (GetBoundingBox benchPolygon) = false := by
    simp [GetBoundingBox, bbLoop, bbStep, benchPolygon, PointInBoundingBox]
    norm_num
  refine ⟨hbox, ?_, ?_, ?_⟩
  · rw [edgeLoop_eq_walkFrom]
    simp [benchPolygon, walkFrom, walk, crossing]
    norm_num
  · simp [evenOddInside, closedEdges, benchPolygon, List.rotate, rayCrossesEdge]
    norm_num
  · rw [PointInPolygon_eq, hbox, Bool.false_and]

/-- Claim C11.  For a polygon with at least one vertex and no vertex coordinate
equal to zero, `GetBoundingBox` returns the true extent, and so does the
variant that starts from the first vertex and compares strictly. -/
theorem getBoundingBox_exact_without_zero (poly : Polygon) (hN : 1 ≤ poly.Points.length)
    (hz : ∀ p ∈ poly.Points, p.X ≠ 0 ∧ p.Y ≠ 0) :
    trueExtent poly.Points = some (GetBoundingBox poly) ∧
      GetBoundingBoxFromFirst poly = some (GetBoundingBox poly) := by
  have hne : poly.Points ≠ [] := by
    intro h; rw [h] at hN; simp at hN
  refine ⟨getBoundingBox_eq_trueExtent poly hne hz, ?_⟩
  rcases hP : poly.Points with _ | ⟨v, vs⟩
  · exact absurd hP hne
  · rw [hP] at hz
    simp only [GetBoundingBoxFromFirst, GetBoundingBox, hP, bbLoop_cons_of_nonzero v vs hz,
      foldl_bbStepStrict_eq_minmax]

/-- Claim C11 at the rectangle of the tests. -/
theorem getBoundingBox_exact_without_zero_witness :
    1 ≤ rectangle.Points.length ∧ (∀ p ∈ rectangle.Points, p.X ≠ 0 ∧ p.Y ≠ 0) ∧
      trueExtent rectangle.Points = some (GetBoundingBox rectangle) ∧
      GetBoundingBoxFromFirst rectangle = some (GetBoundingBox rectangle) :=
  have hz : ∀ p ∈ rectangle.Points, p.X ≠ 0 ∧ p.Y ≠ 0 := by
    simp [rectangle]
  ⟨by decide, hz, getBoundingBox_exact_without_zero rectangle (by decide) hz⟩

/-- Claim C13.  With an effective worker count `w ≥ 1` and `N` points, worker
`i` gets the in-range slice `pts[(N/w)*(i-1) : (N/w)*i]`; the batches in launch
order make up exactly the first `(N/w)*w` points, the `N mod w ≤ w-1` points
after them are in no batch, and every possible result is a permutation of the
points among the first `(N/w)*w` that pass `PointInPolygon`. -/
theorem parallel_batches_cover_prefix (maxProcs numCPU numcores : Int) (pts : List Point) (poly : Polygon) (w : Nat)
    (hw : 1 ≤ w)
    (heff : (if numcores > MaxParallelism maxProcs numCPU then MaxParallelism maxProcs numCPU
      else numcores) = (w : Int)) :
    ∃ batches, parallelBatches maxProcs numCPU pts numcores = some batches ∧
      batches.length = w ∧
      (∀ i, 1 ≤ i → i ≤ w →
        goSlice pts ((pts.length / w) * (i - 1)) ((pts.length / w) * i) =
            some ((pts.drop ((pts.length / w) * (i - 1))).take (pts.length / w)) ∧
          batches[i - 1]? =
            some ((pts.drop ((pts.length / w) * (i - 1))).take (pts.length / w))) ∧
      batches.flatten = pts.take ((pts.length / w) * w) ∧
      pts.length - (pts.length / w) * w = pts.length % w ∧
      pts.length % w ≤ w - 1 ∧
      PointInPolygonParallel maxProcs numCPU pts poly numcores =
        some ((pts.take ((pts.length / w) * w)).filter (fun pt => PointInPolygon pt poly)) ∧
      ∀ out, ParallelOutcome maxProcs numCPU pts poly numcores out →
        out.Perm ((pts.take ((pts.length / w) * w)).filter (fun pt => PointInPolygon pt poly)) := by
  have hb := parallelBatches_eq maxProcs numCPU numcores pts w hw heff
  have hflat : ((List.map (worker poly)
      ((List.range' 1 w).map
        (fun k => (pts.drop ((pts.length / w) * (k - 1))).take (pts.length / w)))).flatten) =
      (pts.take ((pts.length / w) * w)).filter (fun pt => PointInPolygon pt poly) := by
    rw [← flatten_batches pts (pts.length / w) w, List.filter_flatten]
    rfl
  refine ⟨_, hb, by simp, ?_, flatten_batches pts _ w, ?_, ?_, ?_, ?_⟩
  · intro i hi hiw
    refine ⟨goSlice_batch pts _ i w hi hiw (Nat.div_mul_le_self _ _), ?_⟩
    rw [List.getElem?_map, List.getElem?_range' 1 1 (by omega)]
    simp only [Option.map_some', Nat.one_mul]
    rw [show 1 + (i - 1) = i by omega]
  · have := Nat.div_add_mod pts.length w
    have h2 : pts.length / w * w = w * (pts.length / w) := Nat.mul_comm _ _
    omega
  · have := Nat.mod_lt pts.length (show w > 0 by omega)
    omega
  · rw [PointInPolygonParallel, hb, Option.map_some', hflat]
  · rintro out ⟨batches, hbs, hint⟩
    rw [hb, Option.some.injEq] at hbs
    subst hbs
    have hp := hint.perm
    rw [hflat] at hp
    exact hp

/-- Claim C13 at three points, two requested workers and a ceiling of four. -/
theorem parallel_batches_cover_prefix_witness :
    ∃ batches, parallelBatches 4 4 [⟨3/2, 3/2⟩, ⟨5/4, 5/4⟩, ⟨7/4, 7/4⟩] 2 = some batches ∧
      batches.length = 2 ∧
      batches.flatten = List.take ((3 / 2) * 2) [⟨3/2, 3/2⟩, ⟨5/4, 5/4⟩, ⟨7/4, 7/4⟩] :=
  have h := parallel_batches_cover_prefix 4 4 2 [⟨3/2, 3/2⟩, ⟨5/4, 5/4⟩, ⟨7/4, 7/4⟩] rectangle 2 (by decide) (by decide)
  h.elim (fun batches hb => ⟨batches, hb.1, hb.2.1, hb.2.2.2.1⟩)

/-- Claim C14.  The straddle condition implies a non-zero divisor and fails for
every horizontal edge, so the condition of the loop body, and the whole loop
of `PointInPolygon`, never evaluate the quotient with divisor zero. -/
theorem crossing_divisor_nonzero (pt : Point) (poly : Polygon) :
    (∀ vi vj : Point, (decide (vi.Y > pt.Y) != decide (vj.Y > pt.Y)) = true →
      vj.Y - vi.Y ≠ 0) ∧
    (∀ vi vj : Point, vi.Y = vj.Y →
      (decide (vi.Y > pt.Y) != decide (vj.Y > pt.Y)) = false) ∧
    (∀ vi vj : Point, crossingChecked pt vi vj = some (crossing pt vi vj)) ∧
    edgeLoopChecked pt poly.Points 1 0 Nat.zero_lt_one false =
      some (edgeLoop pt poly.Points 1 0 Nat.zero_lt_one false) := by
  refine ⟨?_, ?_, crossingChecked_eq pt, edgeLoopChecked_eq pt poly.Points _ 1 0 _ false rfl⟩
  · intro vi vj hs h
    rw [sub_eq_zero] at h
    rw [h] at hs
    simp at hs
  · intro vi vj h
    rw [h]
    simp

/-- Claim C14 at the point `(5,1)` and the edge between `(0,2)` and `(0,0)`. -/
theorem crossing_divisor_nonzero_witness :
    ((decide ((2 : ℚ) > 1) != decide ((0 : ℚ) > 1)) = true → (0 : ℚ) - 2 ≠ 0) ∧
      (0 : ℚ) - 2 ≠ 0 :=
  ⟨(crossing_divisor_nonzero ⟨5, 1⟩ rectangle).1 ⟨0, 2⟩ ⟨0, 0⟩,
    (crossing_divisor_nonzero ⟨5, 1⟩ rectangle).1 ⟨0, 2⟩ ⟨0, 0⟩ (by simp)⟩

/-- Claim C15.  With a worker count of zero (and a ceiling that is not negative,
as the Go runtime guarantees) the launching loop does not run its body: no
division, no batch, no fault, and the empty result under every schedule. -/
theorem parallel_zero_workers (maxProcs numCPU : Int) (pts : List Point) (poly : Polygon)
    (hc : 0 ≤ MaxParallelism maxProcs numCPU) :
    launchLoop pts 0 1 0 = some [] ∧
      parallelBatches maxProcs numCPU pts 0 = some [] ∧
      PointInPolygonParallel maxProcs numCPU pts poly 0 = some [] ∧
      ∀ out, ParallelOutcome maxProcs numCPU pts poly 0 out → out = [] := by
  have hb : parallelBatches maxProcs numCPU pts 0 = some [] :=
    parallelBatches_zero maxProcs numCPU 0 pts (by rw [if_neg (by omega)])
  refine ⟨launchLoop_zero pts, hb, ?_, ?_⟩
  · rw [PointInPolygonParallel, hb]
    rfl
  · rintro out ⟨batches, hbs, hint⟩
    rw [hb, Option.some.injEq] at hbs
    subst hbs
    exact List.Perm.eq_nil hint.perm

/-- Claim C15 at two points with `GOMAXPROCS = 8` and four CPUs. -/
theorem parallel_zero_workers_witness :
    0 ≤ MaxParallelism 8 4 ∧
      PointInPolygonParallel 8 4 [⟨3/2, 3/2⟩, ⟨5/4, 5/4⟩] rectangle 0 = some [] :=
  ⟨by decide, (parallel_zero_workers 8 4 [⟨3/2, 3/2⟩, ⟨5/4, 5/4⟩] rectangle (by decide)).2.2.1⟩

/-- Claim C16.  `MaxParallelism` is the minimum of its two runtime values, and
for a request `r ≥ 0` (and a ceiling that is not negative) the call does not
fault and launches exactly `min r c` workers, at most the ceiling `c`. -/
theorem parallel_launches_min (maxProcs numCPU r : Int) (pts : List Point) (hr : 0 ≤ r)
    (hc : 0 ≤ MaxParallelism maxProcs numCPU) :
    MaxParallelism maxProcs numCPU = min maxProcs numCPU ∧
      ∃ batches, parallelBatches maxProcs numCPU pts r = some batches ∧
        (batches.length : Int) = min r (MaxParallelism maxProcs numCPU) ∧
        (batches.length : Int) ≤ MaxParallelism maxProcs numCPU := by
  constructor
  · unfold MaxParallelism
    split_ifs with h
    · exact (min_eq_left h.le).symm
    · exact (min_eq_right (not_lt.mp h)).symm
  · have heff : (if r > MaxParallelism maxProcs numCPU then MaxParallelism maxProcs numCPU
        else r) = min r (MaxParallelism maxProcs numCPU) := by
      split_ifs with h
      · exact (min_eq_right h.le).symm
      · exact (min_eq_left (not_lt.mp h)).symm
    have hnn : 0 ≤ min r (MaxParallelism maxProcs numCPU) := le_min hr hc
    obtain ⟨w, hw⟩ := Int.eq_ofNat_of_zero_le hnn
    rw [hw] at heff
    rcases Nat.eq_zero_or_pos w with h0 | hpos
    · subst h0
      refine ⟨[], parallelBatches_zero maxProcs numCPU r pts heff, ?_, ?_⟩
      · rw [hw]; rfl
      · exact hc
    · refine ⟨_, parallelBatches_eq maxProcs numCPU r pts w hpos heff, ?_, ?_⟩
      · rw [hw]; simp
      · have : (w : Int) ≤ MaxParallelism maxProcs numCPU := by
          rw [← hw]; exact min_le_right _ _
        simpa using this

/-- Claim C16 at a request of seven workers under a ceiling of four. -/
theorem parallel_launches_min_witness :
    (0 : Int) ≤ 7 ∧ 0 ≤ MaxParallelism 8 4 ∧
      ∃ batches, parallelBatches 8 4 [⟨3/2, 3/2⟩, ⟨5/4, 5/4⟩] 7 = some batches ∧
        (batches.length : Int) = min 7 (MaxParallelism 8 4) :=
  have h := parallel_launches_min 8 4 7 [⟨3/2, 3/2⟩, ⟨5/4, 5/4⟩] (by decide) (by decide)
  ⟨by decide, by decide, h.2.elim (fun batches hb => ⟨batches, hb.1, hb.2.1⟩)⟩

/-- Claim C17, at a concrete input.  The polygon `(1,1), (3,3)` has two vertices;
by the even-odd rule over its closed boundary the point `(3/2,2)` is outside,
yet `PointInPolygon` returns true. -/
theorem pointInPolygon_twoGon_true :
    twoGon.Points.length = 2 ∧
      evenOddInside ⟨3 / 2, 2⟩ twoGon.Points = false ∧
      PointInPolygon ⟨3 / 2, 2⟩ twoGon = true := by
  refine ⟨rfl, ?_, ?_⟩
  · simp [evenOddInside, closedEdges, twoGon, List.rotate, rayCrossesEdge]
    norm_num
  · rw [PointInPolygon_eq]
    simp [GetBoundingBox, bbLoop, bbStep, PointInBoundingBox, twoGon, walkFrom, walk, crossing]
    norm_num

/-- Claim C18.  For a polygon with no vertex coordinate equal to zero,
`PointInPolygon` gives the same value on the reversed vertex list. -/
theorem pointInPolygon_reverse (pt : Point) (poly : Polygon)
    (hz : ∀ p ∈ poly.Points, p.X ≠ 0 ∧ p.Y ≠ 0) :
    PointInPolygon pt ⟨poly.Points.reverse⟩ = PointInPolygon pt poly := by
  have hbox : GetBoundingBox ⟨poly.Points.reverse⟩ = GetBoundingBox poly := by
    by_cases hP : poly.Points = []
    · simp only [GetBoundingBox, hP, List.reverse_nil]
    · have h1 := getBoundingBox_eq_trueExtent poly hP hz
      have h2 := getBoundingBox_eq_trueExtent ⟨poly.Points.reverse⟩
        (by simpa using hP) (by intro p hp; exact hz p (List.mem_reverse.mp hp))
      exact trueExtent_congr _ _ _ _ h2 h1 (fun p => List.mem_reverse)
  rw [PointInPolygon_eq, PointInPolygon_eq, hbox, walkFrom_eq_chainParity,
    walkFrom_eq_chainParity, chainParity_reverse]

/-- Claim C18 at the triangle `(2,3), (1,1), (3,1)` and the point `(2,2)`. -/
theorem pointInPolygon_reverse_witness :
    (∀ p ∈ triangle.Points, p.X ≠ 0 ∧ p.Y ≠ 0) ∧
      PointInPolygon ⟨2, 2⟩ ⟨triangle.Points.reverse⟩ = PointInPolygon ⟨2, 2⟩ triangle :=
  have hz : ∀ p ∈ triangle.Points, p.X ≠ 0 ∧ p.Y ≠ 0 := by
    simp [triangle]
  ⟨hz, pointInPolygon_reverse ⟨2, 2⟩ triangle hz⟩

/-- Claim C12, as stated, fails.  For the polygon `(NaN,NaN), (1,1), (2,2)` the
first pass stores not-a-number in all four accumulators and no later
comparison replaces it: the box is all not-a-number, and neither
`BottomLeft.X <= TopRight.X` nor `BottomLeft.Y <= TopRight.Y` holds. -/
theorem getBoundingBoxFloat_nan_not_ordered :
    nanPolygon.Points.length = 3 ∧
      GetBoundingBoxFloat nanPolygon = ⟨⟨.nan, .nan⟩, ⟨.nan, .nan⟩⟩ ∧
      ¬ ((GetBoundingBoxFloat nanPolygon).BottomLeft.X.le
            (GetBoundingBoxFloat nanPolygon).TopRight.X = true ∧
          (GetBoundingBoxFloat nanPolygon).BottomLeft.Y.le
            (GetBoundingBoxFloat nanPolygon).TopRight.Y = true) := by
  have h : GetBoundingBoxFloat nanPolygon = ⟨⟨.nan, .nan⟩, ⟨.nan, .nan⟩⟩ := by
    simp [GetBoundingBoxFloat, bbLoopFloat, bbStepFloat, nanPolygon, FloatVal.gt, FloatVal.lt,
      FloatVal.eqZero]
  refine ⟨rfl, h, ?_⟩
  rw [h]
  simp [FloatVal.le]

/-- Claim C12, amended.  For every polygon none of whose vertex coordinates is
not-a-number (empty ones and ones with zero coordinates included), the box of
`GetBoundingBox` satisfies `BottomLeft.X <= TopRight.X` and
`BottomLeft.Y <= TopRight.Y`. -/
theorem getBoundingBoxFloat_ordered_of_no_nan (poly : FloatPolygon)
    (hnan : ∀ p ∈ poly.Points, p.X ≠ .nan ∧ p.Y ≠ .nan) :
    (GetBoundingBoxFloat poly).BottomLeft.X.le (GetBoundingBoxFloat poly).TopRight.X = true ∧
      (GetBoundingBoxFloat poly).BottomLeft.Y.le (GetBoundingBoxFloat poly).TopRight.Y = true := by
  rw [toFloat_map_toExact poly hnan, GetBoundingBoxFloat_toFloat]
  have h := getBoundingBox_ordered ⟨poly.Points.map FloatPoint.toExact⟩
  simp only [BoundingBox.toFloat, Point.toFloat, FloatVal.le, decide_eq_true_eq]
  exact h

/-- Claim C12, amended, at the polygon of the benchmark, which has zero
coordinates. -/
theorem getBoundingBoxFloat_ordered_of_no_nan_witness :
    (∀ p ∈ benchPolygon.toFloat.Points, p.X ≠ .nan ∧ p.Y ≠ .nan) ∧
      (GetBoundingBoxFloat benchPolygon.toFloat).BottomLeft.X.le
        (GetBoundingBoxFloat benchPolygon.toFloat).TopRight.X = true ∧
      (GetBoundingBoxFloat benchPolygon.toFloat).BottomLeft.Y.le
        (GetBoundingBoxFloat benchPolygon.toFloat).TopRight.Y = true :=
  have h : ∀ p ∈ benchPolygon.toFloat.Points, p.X ≠ .nan ∧ p.Y ≠ .nan := by
    simp [benchPolygon, Polygon.toFloat, Point.toFloat]
  ⟨h, getBoundingBoxFloat_ordered_of_no_nan benchPolygon.toFloat h⟩

/-- Claim C19, as stated, fails.  The polygon `(NaN,NaN), (1,1), (2,2)` has three
vertices and its box is all not-a-number, so no value `m` at all, whatever
the least and greatest coordinates are taken to be, satisfies
`m <= BottomLeft.X`, `TopRight.X <= m`, `m <= BottomLeft.Y` or
`TopRight.Y <= m`. -/
theorem getBoundingBoxFloat_nan_outside_extent :
    1 ≤ nanPolygon.Points.length ∧
      GetBoundingBoxFloat nanPolygon = ⟨⟨.nan, .nan⟩, ⟨.nan, .nan⟩⟩ ∧
      (¬ ∃ m : FloatVal, m.le (GetBoundingBoxFloat nanPolygon).BottomLeft.X = true) ∧
      (¬ ∃ m : FloatVal, (GetBoundingBoxFloat nanPolygon).TopRight.X.le m = true) ∧
      (¬ ∃ m : FloatVal, m.le (GetBoundingBoxFloat nanPolygon).BottomLeft.Y = true) ∧
      (¬ ∃ m : FloatVal, (GetBoundingBoxFloat nanPolygon).TopRight.Y.le m = true) := by
  have h : GetBoundingBoxFloat nanPolygon = ⟨⟨.nan, .nan⟩, ⟨.nan, .nan⟩⟩ := by
    simp [GetBoundingBoxFloat, bbLoopFloat, bbStepFloat, nanPolygon, FloatVal.gt, FloatVal.lt,
      FloatVal.eqZero]
  refine ⟨by decide, h, ?_, ?_, ?_, ?_⟩ <;> rw [h] <;> rintro ⟨m, hm⟩ <;>
    cases m <;> simp [FloatVal.le] at hm

/-- Claim C19, amended.  For every polygon none of whose vertex coordinates is
not-a-number: without vertices the box of `GetBoundingBox` is `(0,0), (0,0)`;
with at least one vertex (zero coordinates allowed) each of its four
coordinates is that coordinate of some vertex, and the box does not extend
beyond the true extent: `min x <= BottomLeft.X`, `TopRight.X <= max x`,
`min y <= BottomLeft.Y`, `TopRight.Y <= max y`. -/
theorem getBoundingBoxFloat_within_extent_of_no_nan (poly : FloatPolygon)
    (hnan : ∀ p ∈ poly.Points, p.X ≠ .nan ∧ p.Y ≠ .nan) :
    (poly.Points = [] →
      GetBoundingBoxFloat poly = ⟨⟨.num 0, .num 0⟩, ⟨.num 0, .num 0⟩⟩) ∧
    (1 ≤ poly.Points.length →
      ((GetBoundingBoxFloat poly).BottomLeft.X ∈ poly.Points.map FloatPoint.X ∧
        (GetBoundingBoxFloat poly).BottomLeft.Y ∈ poly.Points.map FloatPoint.Y ∧
        (GetBoundingBoxFloat poly).TopRight.X ∈ poly.Points.map FloatPoint.X ∧
        (GetBoundingBoxFloat poly).TopRight.Y ∈ poly.Points.map FloatPoint.Y) ∧
      ∃ bb, trueExtent (poly.Points.map FloatPoint.toExact) = some bb ∧
        bb.toFloat.BottomLeft.X.le (GetBoundingBoxFloat poly).BottomLeft.X = true ∧
        (GetBoundingBoxFloat poly).TopRight.X.le bb.toFloat.TopRight.X = true ∧
        bb.toFloat.BottomLeft.Y.le (GetBoundingBoxFloat poly).BottomLeft.Y = true ∧
        (GetBoundingBoxFloat poly).TopRight.Y.le bb.toFloat.TopRight.Y = true) := by
  have hpoly := toFloat_map_toExact poly hnan
  have hbox : GetBoundingBoxFloat poly =
      (GetBoundingBox ⟨poly.Points.map FloatPoint.toExact⟩).toFloat := by
    conv_lhs => rw [hpoly]
    exact GetBoundingBoxFloat_toFloat _
  have hpts : poly.Points = (poly.Points.map FloatPoint.toExact).map Point.toFloat := by
    conv_lhs => rw [hpoly]
    rfl
  have hex := getBoundingBox_within_extent_exact ⟨poly.Points.map FloatPoint.toExact⟩
  have hX : ∀ x : ℚ, x ∈ (poly.Points.map FloatPoint.toExact).map Point.X →
      FloatVal.num x ∈ poly.Points.map FloatPoint.X := by
    intro x hx
    rw [hpts, List.map_map]
    rw [List.mem_map] at hx ⊢
    obtain ⟨q, hq, rfl⟩ := hx
    exact ⟨q, hq, rfl⟩
  have hY : ∀ y : ℚ, y ∈ (poly.Points.map FloatPoint.toExact).map Point.Y →
      FloatVal.num y ∈ poly.Points.map FloatPoint.Y := by
    intro y hy
    rw [hpts, List.map_map]
    rw [List.mem_map] at hy ⊢
    obtain ⟨q, hq, rfl⟩ := hy
    exact ⟨q, hq, rfl⟩
  constructor
  · intro h
    rw [hbox, (hex.1 (by simp [h]))]
    rfl
  · intro hN
    obtain ⟨⟨m1, m2, m3, m4⟩, bb, hbb, b1, b2, b3, b4⟩ :=
      hex.2 (by simpa using hN)
    rw [hbox]
    refine ⟨⟨hX _ m1, hY _ m2, hX _ m3, hY _ m4⟩, bb, hbb, ?_⟩
    simp only [BoundingBox.toFloat, Point.toFloat, FloatVal.le, decide_eq_true_eq]
    exact ⟨b1, b2, b3, b4⟩

/-- Claim C19, amended, at the polygon of the benchmark. -/
theorem getBoundingBoxFloat_within_extent_of_no_nan_witness :
    (∀ p ∈ benchPolygon.toFloat.Points, p.X ≠ .nan ∧ p.Y ≠ .nan) ∧
      1 ≤ benchPolygon.toFloat.Points.length ∧
      (GetBoundingBoxFloat benchPolygon.toFloat).BottomLeft.X ∈
        benchPolygon.toFloat.Points.map FloatPoint.X :=
  have h : ∀ p ∈ benchPolygon.toFloat.Points, p.X ≠ .nan ∧ p.Y ≠ .nan := by
    simp [benchPolygon, Polygon.toFloat, Point.toFloat]
  ⟨h, by decide, ((getBoundingBoxFloat_within_extent_of_no_nan benchPolygon.toFloat h).2 (by decide)).1.1⟩

end Pip
